import Mathlib

/-!
Verification of the AtlasEngine terminal renderer (src/renderer/atlas).

Shallow embedding of:
- `GlyphCacheMap` from BackendD3D11.h (open-addressing glyph atlas cache),
- the scroll/invalidation part of `AtlasEngine::StartPaint`,
- the line accumulator (`AtlasEngine::PaintBufferLine`, `UpdateDrawingBrushes`),
- the simple-span and complex-span glyph append paths of
  `AtlasEngine::_flushBufferLine`,
- `AtlasEngine::_handleException`.

Machine integers are embedded as `Nat`/`Int` (values stay far below the
relevant `u16`/`u32`/`size_t` bounds on all considered inputs), `f32` DIP
arithmetic is embedded as exact rationals, COM pointers (`IDWriteFontFace*`)
as `Nat` with `0` playing the role of `nullptr`.
-/
namespace Terminal.Atlas

/-- Embeds `BackendD3D11::GlyphCacheEntry`. `fontFace` is the pointer value
of the `IDWriteFontFace*` key field, `0` standing for `nullptr` (the
empty-slot marker). The rasterization fields `xy`, `wh`, `offset`,
`colorGlyph` are carried along untouched by the map operations. -/
structure GlyphCacheEntry where
  fontFace : Nat
  glyphIndex : Nat
  xy : Nat × Nat
  wh : Nat × Nat
  offset : Int × Int
  colorGlyph : Bool
deriving DecidableEq

/-- A default-constructed `GlyphCacheEntry` (all member initializers zero). -/
def GlyphCacheEntry.empty : GlyphCacheEntry :=
  { fontFace := 0, glyphIndex := 0, xy := (0, 0), wh := (0, 0)
    offset := (0, 0), colorGlyph := false }

/-- Embeds `BackendD3D11::GlyphCacheMap`. The backing `Buffer` `_map` of
size `_mapMask + 1` is embedded as a list of that length. The hash function
`til::hash` over the packed (fontFace, glyphIndex) bytes is kept abstract:
every operation below takes it as the parameter `hash`. -/
structure GlyphCacheMap where
  map : List GlyphCacheEntry
  mapMask : Nat
  capacity : Nat
  size : Nat
deriving DecidableEq

/-- Reading table slot `s` (`_map[s]`). Out-of-range reads (which the C++
`Buffer` would assert on) default to the empty entry; all considered states
keep `map.length = mapMask + 1` so probed slots `i &&& mapMask` are always
in range. -/
def slotRead (m : List GlyphCacheEntry) (s : Nat) : GlyphCacheEntry :=
  m.getD s GlyphCacheEntry.empty

/-- The entry at a slot matches the probed key
(`entry.fontFace == fontFace && entry.glyphIndex == glyphIndex`). -/
def entryMatches (e : GlyphCacheEntry) (f g : Nat) : Prop :=
  e.fontFace = f ∧ e.glyphIndex = g

instance (e : GlyphCacheEntry) (f g : Nat) : Decidable (entryMatches e f g) :=
  inferInstanceAs (Decidable (_ ∧ _))

/-- `static constexpr u32 initialSize = 256`. -/
def glyphCacheInitialSize : Nat := 256

/-- The freshly constructed map: `_map{ initialSize }`,
`_mapMask = initialSize - 1`, `_capacity = _mapMask / 2`, `_size = 0`. -/
def GlyphCacheMap.init : GlyphCacheMap :=
  { map := List.replicate glyphCacheInitialSize GlyphCacheEntry.empty
    mapMask := glyphCacheInitialSize - 1
    capacity := (glyphCacheInitialSize - 1) / 2
    size := 0 }

/-- The probe loop of `FindOrInsert`: starting at `i`, step until either an
entry matching the key is found (result `(slot, true)`) or an empty slot is
found (result `(slot, false)`). The C++ loop `for (auto i = hash;; ++i)`
has no bound; we give it `fuel` (one table size worth of probes suffices
whenever the table has a free slot) and return `none` on exhaustion. -/
def probeFind (m : List GlyphCacheEntry) (mask f g : Nat) :
    Nat → Nat → Option (Nat × Bool)
  | 0, _ => none
  | fuel + 1, i =>
    let s := i &&& mask
    let e := slotRead m s
    if entryMatches e f g then some (s, true)
    else if e.fontFace = 0 then some (s, false)
    else probeFind m mask f g fuel (i + 1)

/-- The probe loop of `_insert`: starting at `i`, step to the first empty
slot. -/
def probeEmpty (m : List GlyphCacheEntry) (mask : Nat) :
    Nat → Nat → Option Nat
  | 0, _ => none
  | fuel + 1, i =>
    let s := i &&& mask
    if (slotRead m s).fontFace = 0 then some s
    else probeEmpty m mask fuel (i + 1)

/-- Embeds `GlyphCacheMap::_bumpSize`: double the table, then write every
old slot's entry (the empty ones included, exactly as the C++ range-for
over `_map` does) at `_hash(entry) & newMapMask` in ascending slot order,
with plain assignment and no probing. `_capacity` becomes
`newMapMask / 2`. The `FAIL_FAST_IF(newMapSize >= INT32_MAX)` overflow
guard is not modelled (no considered input approaches it). -/
def GlyphCacheMap.bumpSize (hash : Nat → Nat → Nat) (st : GlyphCacheMap) :
    GlyphCacheMap :=
  let oldSize := st.mapMask + 1
  let newMapSize := oldSize * 2
  let newMapMask := newMapSize - 1
  let newMap := st.map.foldl
    (fun acc e => acc.set (hash e.fontFace e.glyphIndex &&& newMapMask) e)
    (List.replicate newMapSize GlyphCacheEntry.empty)
  { map := newMap, mapMask := newMapMask, capacity := newMapMask / 2
    size := st.size }

/-- Embeds `GlyphCacheMap::_insert`: grow when `_size >= _capacity`,
increment `_size`, then probe from the hash for the first empty slot and
write the key there (the `AddRef` on the font face is the strong reference
the cache takes; reference counts have no further observable state here).
Returns the slot written and the new map state. -/
def GlyphCacheMap.insertKey (hash : Nat → Nat → Nat) (st : GlyphCacheMap)
    (f g : Nat) : Option (Nat × GlyphCacheMap) :=
  let st1 := if st.capacity ≤ st.size then st.bumpSize hash else st
  let st2 : GlyphCacheMap := { st1 with size := st1.size + 1 }
  match probeEmpty st2.map st2.mapMask (st2.mapMask + 1) (hash f g) with
  | none => none
  | some s =>
    some (s, { st2 with
      map := st2.map.set s
        { GlyphCacheEntry.empty with fontFace := f, glyphIndex := g } })

/-- Embeds `GlyphCacheMap::FindOrInsert`. The returned `Nat` is the slot
index of the returned `GlyphCacheEntry&`, the `Bool` is the `inserted`
out-parameter. -/
def GlyphCacheMap.FindOrInsert (hash : Nat → Nat → Nat)
    (st : GlyphCacheMap) (f g : Nat) : Option (Nat × Bool × GlyphCacheMap) :=
  match probeFind st.map st.mapMask f g (st.mapMask + 1) (hash f g) with
  | none => none
  | some (s, true) => some (s, false, st)
  | some (_, false) =>
    match st.insertKey hash f g with
    | none => none
    | some (s, st1) => some (s, true, st1)

/-- A sequence of `FindOrInsert` calls, keeping the evolving map state. -/
def insertAll (hash : Nat → Nat → Nat) (st : GlyphCacheMap)
    (keys : List (Nat × Nat)) : Option GlyphCacheMap :=
  keys.foldlM
    (fun st kv => (st.FindOrInsert hash kv.1 kv.2).map (fun r => r.2.2)) st

/-- A concrete hash function for the C7 witness. -/
def hashFst (f _g : Nat) : Nat := f

/-- The state of the fresh cache after `FindOrInsert(5, 7)`. -/
def c7State : GlyphCacheMap :=
  { map := (List.replicate glyphCacheInitialSize GlyphCacheEntry.empty).set 5
      { GlyphCacheEntry.empty with fontFace := 5, glyphIndex := 7 }
    mapMask := 255, capacity := 127, size := 1 }

/-- Hash function realizing a collision in the doubled table: keys 1..126
hash to their own value, key 127 hashes to 1. -/
def hashC1 (f : Nat) (_g : Nat) : Nat := if f = 127 then 1 else f

/-- 128 distinct keys (with non-null font faces): enough to reach
`_size >= _capacity = 127` and trigger `_bumpSize` on the 128th insert. -/
def keysC1 : List (Nat × Nat) := (List.range 128).map (fun i => (i + 1, 0))

/-! ## ShapedRow (common.h, lines 365-394) -/
structure FontMapping where
  fontFace : Nat
  fontEmSize : ℚ
  glyphsFrom : Nat
  glyphsTo : Nat
deriving DecidableEq

structure GlyphOffset where
  advanceOffset : ℚ
  ascenderOffset : ℚ
deriving DecidableEq

structure ShapedRow where
  mappings : List FontMapping
  glyphIndices : List Nat
  glyphAdvances : List ℚ
  glyphOffsets : List GlyphOffset
  colors : List Nat
  selectionFrom : Nat
  selectionTo : Nat
deriving DecidableEq

def ShapedRow.cleared : ShapedRow :=
  { mappings := [], glyphIndices := [], glyphAdvances := [], glyphOffsets := []
    colors := [], selectionFrom := 0, selectionTo := 0 }

def ShapedRow.clear (_r : ShapedRow) : ShapedRow := ShapedRow.cleared

def clamp {α : Type} [LinearOrder α] (val lo hi : α) : α := max lo (min hi val)

structure U16Rect where
  left : Nat
  top : Nat
  right : Nat
  bottom : Nat
deriving DecidableEq

def clearRowsFrom (rows : List ShapedRow) (y : Nat) : Nat → List ShapedRow
  | 0 => rows
  | n + 1 => clearRowsFrom (rows.set y ShapedRow.cleared) (y + 1) n

def scrollShiftUp (rows : List ShapedRow) (d : Nat) : List ShapedRow :=
  rows.drop d ++ List.replicate (min d rows.length) ShapedRow.cleared

def scrollShiftDown (rows : List ShapedRow) (d : Nat) : List ShapedRow :=
  List.replicate (min d rows.length) ShapedRow.cleared ++ rows.take (rows.length - d)

structure StartPaintResult where
  cursorArea : U16Rect
  invalidatedRows : Nat × Nat
  scrollOffset : Int
  rows : List ShapedRow
deriving DecidableEq

def startPaintScroll (cellCountX cellCountY : Nat) (cursorArea : U16Rect)
    (invRows : Nat × Nat) (scrollOffset : Int) (rows : List ShapedRow) :
    StartPaintResult :=
  let caLeft := min cursorArea.left cellCountX
  let caTop := min cursorArea.top cellCountY
  let caRight := clamp cursorArea.right caLeft cellCountX
  let caBottom := clamp cursorArea.bottom caTop cellCountY
  let ix0 := min invRows.1 cellCountY
  let iy0 := clamp invRows.2 ix0 cellCountY
  let limit : Int := ((cellCountY &&& 0x7fff : Nat) : Int)
  let offset : Int := clamp scrollOffset (-limit) limit
  let res :=
    if offset = 0 then (ix0, iy0, rows)
    else if offset < 0 then
      let d := (-offset).toNat
      let endRow := ((cellCountY : Int) + offset).toNat
      let nothingInvalid := ix0 = iy0
      ((if nothingInvalid then endRow else min ix0 endRow), cellCountY,
        scrollShiftUp rows d)
    else
      let d := offset.toNat
      let nothingInvalid := ix0 = iy0
      (0, (if nothingInvalid then d else max iy0 d), scrollShiftDown rows d)
  let rows2 := clearRowsFrom res.2.2 res.1 (res.2.1 - res.1)
  { cursorArea := { left := caLeft, top := caTop, right := caRight, bottom := caBottom }
    invalidatedRows := (res.1, res.2.1)
    scrollOffset := offset
    rows := rows2 }

def caZero : U16Rect := { left := 0, top := 0, right := 0, bottom := 0 }

def rowTag (j : Nat) : ShapedRow := { ShapedRow.cleared with glyphIndices := [j] }

def rows5 : List ShapedRow := [rowTag 0, rowTag 1, rowTag 2, rowTag 3, rowTag 4]

/-! ## AtlasEngine::_handleException (AtlasEngine.cpp, lines 413-433) -/
def DXGI_ERROR_DEVICE_REMOVED : Nat := 0x887A0005

def DXGI_ERROR_DEVICE_RESET : Nat := 0x887A0007

def D2DERR_RECREATE_TARGET : Nat := 0x8899000C

def E_PENDING : Nat := 0x8000000A

structure EngineResources where
  dxgiFactory : Bool
  backend : Bool
deriving DecidableEq

structure HandleExceptionResult where
  status : Nat
  resources : EngineResources
  warningLog : Option (List Nat)
deriving DecidableEq

def handleException (hr : Nat) (res : EngineResources)
    (warningLog : Option (List Nat)) : HandleExceptionResult :=
  if hr = DXGI_ERROR_DEVICE_REMOVED ∨ hr = DXGI_ERROR_DEVICE_RESET ∨
      hr = D2DERR_RECREATE_TARGET then
    { status := E_PENDING
      resources := { dxgiFactory := false, backend := false }
      warningLog := warningLog }
  else
    { status := hr
      resources := res
      warningLog := warningLog.map (fun log => log ++ [hr]) }

/-! ## Line accumulator: PaintBufferLine / UpdateDrawingBrushes -/
structure Cluster where
  text : List Nat
  columns : Nat
deriving DecidableEq

structure AtlasKeyAttributes where
  bold : Bool
  italic : Bool
deriving DecidableEq

structure ApiState where
  bufferLine : List Nat
  bufferLineColumn : List Nat
  lastPaintBufferLineCoordX : Nat
  lastPaintBufferLineCoordY : Nat
  currentColorFg : Nat
  currentColorBg : Nat
  attributes : AtlasKeyAttributes
  backgroundOpaqueMixin : Nat
  colorsForeground : Nat → Nat
  backgroundBitmap : Nat → Nat
  foregroundBitmap : Nat → Nat
  bufferLineWasHyperlinked : Bool

def fillRange (f : Nat → Nat) (lo hi v : Nat) : Nat → Nat :=
  fun i => if lo ≤ i ∧ i < hi then v else f i

def flushBufferLineAccum (s : ApiState) : ApiState :=
  if s.bufferLine.isEmpty then s
  else { s with bufferLine := [], bufferLineColumn := [] }

def clustersText (clusters : List Cluster) : List Nat :=
  clusters.foldl (fun l cl => l ++ cl.text) []

def paintBufferLine (cellCountX cellCountY : Nat) (s : ApiState)
    (clusters : List Cluster) (coordX coordY : Int) : ApiState :=
  let y := (clamp coordY 0 (cellCountY : Int)).toNat
  let s1 := if s.lastPaintBufferLineCoordY ≠ y then flushBufferLineAccum s else s
  let s2 : ApiState := { s1 with bufferLineColumn := s1.bufferLineColumn.dropLast }
  let x := (clamp coordX 0 (cellCountX : Int)).toNat
  let acc := clusters.foldl
    (fun acc cl =>
      (acc.1 ++ cl.text, acc.2.1 ++ List.replicate cl.text.length acc.2.2,
       acc.2.2 + cl.columns))
    (s2.bufferLine, s2.bufferLineColumn, x)
  { s2 with
    bufferLine := acc.1
    bufferLineColumn := acc.2.1 ++ [acc.2.2]
    colorsForeground := fillRange s2.colorsForeground x acc.2.2 s2.currentColorFg
    backgroundBitmap := fillRange s2.backgroundBitmap (y * cellCountX + x)
      (y * cellCountX + acc.2.2) s2.currentColorBg
    foregroundBitmap := fillRange s2.foregroundBitmap (y * cellCountX + x)
      (y * cellCountX + acc.2.2) s2.currentColorFg
    lastPaintBufferLineCoordX := x
    lastPaintBufferLineCoordY := y
    bufferLineWasHyperlinked := false }

def updateDrawingBrushes (s : ApiState) (fg bg : Nat)
    (attrs : AtlasKeyAttributes) (isSettingDefaultBrushes : Bool) : ApiState :=
  let fg2 := fg ||| 0xff000000
  let bg2 := bg ||| s.backgroundOpaqueMixin
  if !isSettingDefaultBrushes then
    let s1 := if s.attributes ≠ attrs then flushBufferLineAccum s else s
    { s1 with currentColorFg := fg2, currentColorBg := bg2, attributes := attrs }
  else s

/-! ## Simple-span glyph advances (_flushBufferLine, lines 595-629) -/
def scanFor (c : Nat) : List Nat → Option Nat
  | [] => none
  | x :: xs => if c = x then (scanFor c xs).map (fun j => j + 1) else some 1

def simpleGlyphAdvance (cols : List Nat) (cellWidth : ℚ) (k : Nat) : Option ℚ :=
  match cols[k]? with
  | none => none
  | some c => (scanFor c (cols.drop (k + 1))).map (fun j => (j : ℚ) * cellWidth)

def appendSimpleChar (cols : List Nat) (colorsFg : Nat → Nat) (gi : List Nat)
    (cw : ℚ) (idx : Nat) (row : ShapedRow) (i : Nat) : Option ShapedRow := do
  let col ← cols[idx + i]?
  let adv ← simpleGlyphAdvance cols cw (idx + i)
  let g ← gi[i]?
  some { row with
    glyphIndices := row.glyphIndices ++ [g]
    glyphAdvances := row.glyphAdvances ++ [adv]
    glyphOffsets := row.glyphOffsets ++ [{ advanceOffset := 0, ascenderOffset := 0 }]
    colors := row.colors ++ [colorsFg col] }

def appendSimpleSpan (cols : List Nat) (colorsFg : Nat → Nat) (gi : List Nat)
    (cw : ℚ) (idx : Nat) : Nat → ShapedRow → Option ShapedRow
  | 0, row => some row
  | L + 1, row => do
    let row1 ← appendSimpleSpan cols colorsFg gi cw idx L row
    appendSimpleChar cols colorsFg gi cw idx row1 L

def c2Cols : List Nat := [0, 1, 2]

def c2Row : ShapedRow :=
  (appendSimpleSpan c2Cols (fun _ => 5) [11, 12] 10 0 2 ShapedRow.cleared).getD
    ShapedRow.cleared

/-! ## Complex-span cluster correction (_flushBufferLine, lines 737-773) -/
structure ComplexLoopState where
  beg : Nat
  prevCluster : Nat
  advs : List ℚ
  colorsAcc : List Nat

def sumRange (advs : List ℚ) (lo hi : Nat) : Option ℚ :=
  ((List.range' lo (hi - lo)).mapM (fun j => advs[j]?)).map List.sum

def clusterStep (cols : List Nat) (pos : Nat) (colorsFg : Nat → Nat) (cw : ℚ)
    (st : ComplexLoopState) (i next : Nat) : Option ComplexLoopState :=
  if st.prevCluster = next then some st
  else
    match cols[pos + st.beg]?, cols[pos + i]? with
    | some col1, some col2 =>
      let fg := colorsFg col1
      let expected := ((col2 : ℚ) - (col1 : ℚ)) * cw
      match sumRange st.advs st.prevCluster next with
      | none => none
      | some actual =>
        if 1 ≤ next ∧ next - 1 < st.advs.length then
          if st.prevCluster ≤ next then
            some { beg := i, prevCluster := next
                   advs := st.advs.set (next - 1)
                     ((st.advs.getD (next - 1) 0) + (expected - actual))
                   colorsAcc := st.colorsAcc ++
                     List.replicate (next - st.prevCluster) fg }
          else none
        else none
    | _, _ => none

def complexLoopGo (cols : List Nat) (pos : Nat) (colorsFg : Nat → Nat) (cw : ℚ)
    (mapW : List Nat) : Nat → Nat → ComplexLoopState → Option ComplexLoopState
  | _, 0, st => some st
  | i, n + 1, st => do
    let next ← mapW[i]?
    let st2 ← clusterStep cols pos colorsFg cw st i next
    complexLoopGo cols pos colorsFg cw mapW (i + 1) n st2

def appendComplexSpan (row : ShapedRow) (cols : List Nat) (pos : Nat)
    (colorsFg : Nat → Nat) (cw : ℚ) (clusterMap0 : List Nat) (T G : Nat)
    (gi : List Nat) (advs : List ℚ) (offs : List GlyphOffset) :
    Option ShapedRow := do
  let mapW := clusterMap0.take T ++ [G]
  let p0 ← mapW[0]?
  let st ← complexLoopGo cols pos colorsFg cw mapW 1 T
    { beg := 0, prevCluster := p0, advs := advs, colorsAcc := [] }
  some { row with
    glyphIndices := row.glyphIndices ++ gi.take G
    glyphAdvances := row.glyphAdvances ++ st.advs.take G
    glyphOffsets := row.glyphOffsets ++ offs.take G
    colors := row.colors ++ st.colorsAcc }

def zeroOffset : GlyphOffset := { advanceOffset := 0, ascenderOffset := 0 }

def sumOver (advs : List ℚ) (lo hi : Nat) : ℚ :=
  ((List.range' lo (hi - lo)).map (fun j => advs.getD j 0)).sum

def clusterIntervals (mapW : List Nat) : Nat → Nat → Nat → List (Nat × Nat)
  | _, 0, _ => []
  | i, n + 1, beg =>
    if mapW.getD beg 0 = mapW.getD i 0 then clusterIntervals mapW (i + 1) n beg
    else (beg, i) :: clusterIntervals mapW (i + 1) n i

def ShapedRow.balanced (r : ShapedRow) : Prop :=
  r.glyphAdvances.length = r.glyphIndices.length ∧
  r.glyphOffsets.length = r.glyphIndices.length ∧
  r.colors.length = r.glyphIndices.length

def c5Row : ShapedRow :=
  (appendComplexSpan ShapedRow.cleared [0, 1, 3] 0 (fun _ => 0) 10 [0, 2] 2 3
    [7, 8, 9] [4, 5, 6] [zeroOffset, zeroOffset, zeroOffset]).getD
    ShapedRow.cleared

def apiStateC4 : ApiState :=
  { bufferLine := [65], bufferLineColumn := [0, 1]
    lastPaintBufferLineCoordX := 0, lastPaintBufferLineCoordY := 0
    currentColorFg := 1, currentColorBg := 2
    attributes := { bold := false, italic := false }
    backgroundOpaqueMixin := 0
    colorsForeground := fun _ => 0, backgroundBitmap := fun _ => 0
    foregroundBitmap := fun _ => 0, bufferLineWasHyperlinked := false }

def paintClusterH : Cluster := { text := [72], columns := 1 }

/-! ## Theorems -/

/-! ### Probe lemmas -/
lemma slotRead_set_self (m : List GlyphCacheEntry) (s : Nat) (e : GlyphCacheEntry)
    (h : s < m.length) : slotRead (m.set s e) s = e := by
  simp [slotRead, List.getD_eq_getElem?_getD, List.getElem?_set_self h]

lemma slotRead_set_ne (m : List GlyphCacheEntry) (s j : Nat) (e : GlyphCacheEntry)
    (h : s ≠ j) : slotRead (m.set s e) j = slotRead m j := by
  simp [slotRead, List.getD_eq_getElem?_getD, List.getElem?_set_ne h]

/-- A `probeFind` run that ends at an empty slot really ends at an empty slot. -/
lemma probeFind_empty_of_false (m : List GlyphCacheEntry) (mask f g : Nat) :
    ∀ fuel i s, probeFind m mask f g fuel i = some (s, false) →
      (slotRead m s).fontFace = 0 := by
  intro fuel
  induction fuel with
  | zero => intro i s h; simp [probeFind] at h
  | succ n ih =>
    intro i s h
    rw [probeFind] at h
    by_cases h1 : entryMatches (slotRead m (i &&& mask)) f g
    · simp [h1] at h
    · by_cases h2 : (slotRead m (i &&& mask)).fontFace = 0
      · simp [h1, h2] at h
        obtain ⟨rfl, -⟩ := h
        exact h2
      · simp [h1, h2] at h
        exact ih (i + 1) s h

/-- A `probeFind` run that ends at an empty slot agrees with `probeEmpty`
on the same map, fuel and start. -/
lemma probeEmpty_of_probeFind_false (m : List GlyphCacheEntry) (mask f g : Nat) :
    ∀ fuel i s, probeFind m mask f g fuel i = some (s, false) →
      probeEmpty m mask fuel i = some s := by
  intro fuel
  induction fuel with
  | zero => intro i s h; simp [probeFind] at h
  | succ n ih =>
    intro i s h
    rw [probeFind] at h
    rw [probeEmpty]
    by_cases h1 : entryMatches (slotRead m (i &&& mask)) f g
    · simp [h1] at h
    · by_cases h2 : (slotRead m (i &&& mask)).fontFace = 0
      · simp [h1, h2] at h
        subst h
        simp [h2]
      · simp [h1, h2] at h
        simp [h2]
        exact ih (i + 1) s h

/-- `probeEmpty` ends at an empty slot. -/
lemma probeEmpty_ends_empty (m : List GlyphCacheEntry) (mask : Nat) :
    ∀ fuel i s, probeEmpty m mask fuel i = some s →
      (slotRead m s).fontFace = 0 := by
  intro fuel
  induction fuel with
  | zero => intro i s h; simp [probeEmpty] at h
  | succ n ih =>
    intro i s h
    rw [probeEmpty] at h
    by_cases h2 : (slotRead m (i &&& mask)).fontFace = 0
    · simp [h2] at h; exact h ▸ h2
    · simp [h2] at h
      exact ih (i + 1) s h

/-- After writing a matching entry at the slot `probeEmpty` found, a
`probeFind` on the updated table (with the key nowhere else in the table)
finds the key at exactly that slot. -/
lemma probeFind_after_write (m : List GlyphCacheEntry) (mask f g : Nat)
    (e : GlyphCacheEntry) (hme : entryMatches e f g)
    (hlen : m.length = mask + 1)
    (hno : ∀ j, ¬ entryMatches (slotRead m j) f g) :
    ∀ fuel i s, probeEmpty m mask fuel i = some s →
      probeFind (m.set s e) mask f g fuel i = some (s, true) := by
  intro fuel
  induction fuel with
  | zero => intro i s h; simp [probeEmpty] at h
  | succ n ih =>
    intro i s h
    have hempty : (slotRead m s).fontFace = 0 := probeEmpty_ends_empty m mask _ i s h
    rw [probeEmpty] at h
    rw [probeFind]
    by_cases h2 : (slotRead m (i &&& mask)).fontFace = 0
    · simp only [h2, if_true, Option.some.injEq] at h
      subst h
      have hlt : i &&& mask < m.length := by
        rw [hlen]; exact Nat.lt_succ_of_le Nat.and_le_right
      rw [slotRead_set_self m _ e hlt]
      simp [hme]
    · simp only [h2, if_false] at h
      have hne : s ≠ i &&& mask := by
        intro heq; exact h2 (heq ▸ hempty)
      rw [slotRead_set_ne m s (i &&& mask) e hne]
      have hnm := hno (i &&& mask)
      simp only [hnm, if_false, h2, if_false]
      exact ih (i + 1) s h

/-- Folding slot writes over a list preserves the table length. -/
lemma foldl_set_length (l : List GlyphCacheEntry) (h2 : GlyphCacheEntry → Nat) :
    ∀ acc : List GlyphCacheEntry,
      (l.foldl (fun acc e => acc.set (h2 e) e) acc).length = acc.length := by
  induction l with
  | nil => intro acc; rfl
  | cons e l ih =>
    intro acc
    simp only [List.foldl_cons]
    rw [ih]
    exact List.length_set acc _ _

/-- `bumpSize` keeps the table length equal to `mapMask + 1`. -/
lemma bumpSize_wf (hash : Nat → Nat → Nat) (st : GlyphCacheMap) :
    (st.bumpSize hash).map.length = (st.bumpSize hash).mapMask + 1 := by
  unfold GlyphCacheMap.bumpSize
  simp only
  rw [foldl_set_length]
  simp [List.length_replicate]
  omega

/-- If no entry of a list matches the key and the accumulator table has no
matching slot, the folded table has no matching slot either. -/
lemma foldl_set_noMatch (f g : Nat) (h2 : GlyphCacheEntry → Nat) :
    ∀ (l : List GlyphCacheEntry) (acc : List GlyphCacheEntry),
      (∀ e ∈ l, ¬ entryMatches e f g) →
      (∀ j, ¬ entryMatches (slotRead acc j) f g) →
      ∀ j, ¬ entryMatches
        (slotRead (l.foldl (fun acc e => acc.set (h2 e) e) acc) j) f g := by
  intro l
  induction l with
  | nil => intro acc _ hacc j; exact hacc j
  | cons e l ih =>
    intro acc hl hacc j
    simp only [List.foldl_cons]
    refine ih (acc.set (h2 e) e) (fun x hx => hl x (List.mem_cons_of_mem e hx)) ?_ j
    intro j2
    by_cases hj : h2 e = j2
    · subst hj
      by_cases hlt : h2 e < acc.length
      · rw [slotRead_set_self acc _ e hlt]
        exact hl e (List.mem_cons_self e l)
      · rw [List.set_eq_of_length_le (Nat.le_of_not_lt hlt)]
        exact hacc (h2 e)
    · rw [slotRead_set_ne acc _ _ e hj]
      exact hacc j2

/-- Every slot of the initial table is empty, hence cannot match a key with
a non-null font face. -/
lemma slotRead_replicate (n j : Nat) :
    slotRead (List.replicate n GlyphCacheEntry.empty) j = GlyphCacheEntry.empty := by
  simp [slotRead, List.getD_eq_getElem?_getD, List.getElem?_replicate]
  split <;> rfl

lemma noMatch_empty (f g : Nat) (hf : f ≠ 0) (e : GlyphCacheEntry)
    (he : e.fontFace = 0) : ¬ entryMatches e f g := by
  intro hm
  exact hf (hm.1 ▸ he)

/-- `bumpSize` cannot create a matching slot for a key that was matched by
no slot of the old table. -/
lemma bumpSize_noMatch (hash : Nat → Nat → Nat) (st : GlyphCacheMap)
    (f g : Nat) (hf : f ≠ 0)
    (hno : ∀ j, ¬ entryMatches (slotRead st.map j) f g) :
    ∀ j, ¬ entryMatches (slotRead (st.bumpSize hash).map j) f g := by
  unfold GlyphCacheMap.bumpSize
  simp only
  apply foldl_set_noMatch
  · intro e he
    obtain ⟨k, hk, hke⟩ := List.getElem_of_mem he
    have : slotRead st.map k = e := by
      simp [slotRead, List.getD_eq_getElem?_getD, List.getElem?_eq_getElem hk, hke]
    exact this ▸ hno k
  · intro j
    rw [slotRead_replicate]
    exact noMatch_empty f g hf _ rfl

/-- Claim C7: a repeated `FindOrInsert` with the same (fontFace,
glyphIndex) key returns the same table slot as the first call, reports
`inserted = false`, and leaves the map untouched, both when the first call
found the key and when it inserted it (with or without an intervening
resize inside that first call). -/
theorem findOrInsert_idempotent (hash : Nat → Nat → Nat)
    (st : GlyphCacheMap) (f g s : Nat) (b : Bool) (st1 : GlyphCacheMap)
    (hwf : st.map.length = st.mapMask + 1) (hf : f ≠ 0)
    (hcall : st.FindOrInsert hash f g = some (s, b, st1))
    (habsent : b = true → ∀ j, ¬ entryMatches (slotRead st.map j) f g) :
    st1.FindOrInsert hash f g = some (s, false, st1) := by
  unfold GlyphCacheMap.FindOrInsert at hcall
  cases hpf : probeFind st.map st.mapMask f g (st.mapMask + 1) (hash f g) with
  | none => rw [hpf] at hcall; simp at hcall
  | some r =>
    obtain ⟨s0, b0⟩ := r
    rw [hpf] at hcall
    cases b0 with
    | true =>
      simp only [Option.some.injEq, Prod.mk.injEq] at hcall
      obtain ⟨rfl, rfl, rfl⟩ := hcall
      unfold GlyphCacheMap.FindOrInsert
      rw [hpf]
    | false =>
      simp only at hcall
      unfold GlyphCacheMap.insertKey at hcall
      dsimp only at hcall
      cases hpe : probeEmpty
          (if st.capacity ≤ st.size then st.bumpSize hash else st).map
          (if st.capacity ≤ st.size then st.bumpSize hash else st).mapMask
          ((if st.capacity ≤ st.size then st.bumpSize hash else st).mapMask + 1)
          (hash f g) with
      | none => rw [hpe] at hcall; simp at hcall
      | some s1 =>
        rw [hpe] at hcall
        simp only [Option.some.injEq, Prod.mk.injEq] at hcall
        obtain ⟨rfl, rfl, rfl⟩ := hcall
        set stB := if st.capacity ≤ st.size then st.bumpSize hash else st with hstB
        have hwfB : stB.map.length = stB.mapMask + 1 := by
          rw [hstB]
          split
          · exact bumpSize_wf hash st
          · exact hwf
        have hnoB : ∀ j, ¬ entryMatches (slotRead stB.map j) f g := by
          rw [hstB]
          split
          · exact bumpSize_noMatch hash st f g hf (habsent rfl)
          · exact habsent rfl
        have hme : entryMatches
            { GlyphCacheEntry.empty with fontFace := f, glyphIndex := g } f g :=
          ⟨rfl, rfl⟩
        have hfind := probeFind_after_write stB.map stB.mapMask f g _ hme hwfB hnoB
          (stB.mapMask + 1) (hash f g) s1 hpe
        unfold GlyphCacheMap.FindOrInsert
        simp only
        rw [hfind]

/-- Every slot of the freshly constructed map is empty, so no valid key
matches anywhere. -/
lemma init_noMatch (f g : Nat) (hf : f ≠ 0) :
    ∀ j, ¬ entryMatches (slotRead GlyphCacheMap.init.map j) f g := by
  intro j
  show ¬ entryMatches
    (slotRead (List.replicate glyphCacheInitialSize GlyphCacheEntry.empty) j) f g
  rw [slotRead_replicate]
  exact noMatch_empty f g hf _ rfl

set_option maxRecDepth 40000 in
/-- Witness for C7 at a concrete input: inserting key (5, 7) into the
fresh cache and looking it up again. -/
theorem findOrInsert_idempotent_witness :
    GlyphCacheMap.FindOrInsert hashFst c7State 5 7 = some (5, false, c7State) :=
  findOrInsert_idempotent hashFst GlyphCacheMap.init 5 7 5 true c7State
    (by decide) (by decide) (by decide)
    (fun _ => init_noMatch 5 7 (by decide))

set_option maxRecDepth 40000 in
/-- Claim C1 (code bug): after inserting 128 distinct keys into a fresh
glyph cache with the exhibited hash function, the 128th insert triggers
`_bumpSize`, whose probe-less reinsertion writes key (127, 0) over key
(1, 0) in the doubled (mask 511) table; the subsequent `FindOrInsert(1, 0)`
reports `wasInserted = true`, contradicting the claim that no entry is ever
dropped during resize and that previously inserted keys are found with
`wasInserted = false`. -/
theorem glyphCache_resize_drops_key :
    ((insertAll hashC1 GlyphCacheMap.init keysC1).map
      (fun st =>
        (st.mapMask, (st.FindOrInsert hashC1 1 0).map (fun r => r.2.1)))) =
      some (511, some true) := by
  decide

lemma clearRowsFrom_length (rows : List ShapedRow) (y n : Nat) :
    (clearRowsFrom rows y n).length = rows.length := by
  induction n generalizing rows y with
  | zero => rfl
  | succ n ih =>
    rw [clearRowsFrom, ih, List.length_set]

lemma clearRowsFrom_getElem (rows : List ShapedRow) (y n i : Nat) :
    (clearRowsFrom rows y n)[i]? =
      if y ≤ i ∧ i < y + n then
        (if i < rows.length then some ShapedRow.cleared else none)
      else rows[i]? := by
  induction n generalizing rows y with
  | zero =>
    have h0 : ¬ (y ≤ i ∧ i < y) := by omega
    simp [clearRowsFrom, h0]
  | succ n ih =>
    rw [clearRowsFrom, ih]
    by_cases hi : y = i
    · subst hi
      have h1 : ¬ (y + 1 ≤ y ∧ y < y + 1 + n) := by omega
      have h2 : y ≤ y ∧ y < y + (n + 1) := by omega
      simp only [h1, if_neg, if_pos h2, List.length_set]
      by_cases hlt : y < rows.length
      · simp [List.getElem?_set_self hlt, hlt]
      · simp [List.set_eq_of_length_le (Nat.le_of_not_lt hlt), hlt]
        omega
    · rw [List.length_set, List.getElem?_set_ne hi]
      by_cases h1 : y + 1 ≤ i ∧ i < y + 1 + n
      · have h2 : y ≤ i ∧ i < y + (n + 1) := by omega
        simp [h1, h2]
      · have h2 : ¬ (y ≤ i ∧ i < y + (n + 1)) := by omega
        simp [h1, h2]

lemma scrollShiftUp_length (rows : List ShapedRow) (d : Nat) :
    (scrollShiftUp rows d).length = rows.length := by
  simp [scrollShiftUp]
  omega

lemma scrollShiftDown_length (rows : List ShapedRow) (d : Nat) :
    (scrollShiftDown rows d).length = rows.length := by
  simp [scrollShiftDown]
  omega

lemma scrollShiftUp_getElem (rows : List ShapedRow) (d i : Nat) (hd : d ≤ rows.length) :
    (scrollShiftUp rows d)[i]? =
      if i < rows.length - d then rows[i + d]?
      else if i < rows.length then some ShapedRow.cleared
      else none := by
  unfold scrollShiftUp
  rw [List.getElem?_append, List.getElem?_drop, List.getElem?_replicate]
  simp only [List.length_drop]
  have hmin : min d rows.length = d := by omega
  by_cases h1 : i < rows.length - d
  · simp only [h1, if_pos]
    congr 1
    omega
  · by_cases h2 : i < rows.length
    · have h3 : i - (rows.length - d) < d := by omega
      simp [h1, h2, hmin, h3]
    · have h3 : ¬ (i - (rows.length - d) < d) := by omega
      simp [h1, h2, hmin, h3]

lemma scrollShiftDown_getElem (rows : List ShapedRow) (d i : Nat) (hd : d ≤ rows.length) :
    (scrollShiftDown rows d)[i]? =
      if i < d then some ShapedRow.cleared
      else if i < rows.length then rows[i - d]?
      else none := by
  unfold scrollShiftDown
  rw [List.getElem?_append, List.getElem?_replicate, List.getElem?_take]
  have hmin : min d rows.length = d := by omega
  simp only [List.length_replicate, hmin]
  by_cases h1 : i < d
  · simp [h1]
  · by_cases h2 : i < rows.length
    · have h3 : i - d < rows.length - d := by omega
      simp [h1, h2, h3]
    · have h3 : ¬ (i - d < rows.length - d) := by omega
      simp [h1, h2, h3]

lemma startPaintScroll_spec (X N : Nat) (ca : U16Rect) (ir : Nat × Nat) (so : Int)
    (rows : List ShapedRow) :
    (startPaintScroll X N ca ir so rows).scrollOffset =
        clamp so (-((N &&& 0x7fff : Nat) : Int)) ((N &&& 0x7fff : Nat) : Int) ∧
    (startPaintScroll X N ca ir so rows).cursorArea =
        { left := min ca.left X, top := min ca.top N
          right := clamp ca.right (min ca.left X) X
          bottom := clamp ca.bottom (min ca.top N) N } ∧
    ((startPaintScroll X N ca ir so rows).scrollOffset = 0 →
      (startPaintScroll X N ca ir so rows).invalidatedRows =
          (min ir.1 N, clamp ir.2 (min ir.1 N) N) ∧
      (startPaintScroll X N ca ir so rows).rows =
          clearRowsFrom rows (min ir.1 N) (clamp ir.2 (min ir.1 N) N - min ir.1 N)) ∧
    ((startPaintScroll X N ca ir so rows).scrollOffset < 0 →
      (startPaintScroll X N ca ir so rows).invalidatedRows =
          ((if min ir.1 N = clamp ir.2 (min ir.1 N) N
            then ((N : Int) + (startPaintScroll X N ca ir so rows).scrollOffset).toNat
            else min (min ir.1 N)
              (((N : Int) + (startPaintScroll X N ca ir so rows).scrollOffset).toNat)), N) ∧
      (startPaintScroll X N ca ir so rows).rows =
          clearRowsFrom
            (scrollShiftUp rows (-(startPaintScroll X N ca ir so rows).scrollOffset).toNat)
            (startPaintScroll X N ca ir so rows).invalidatedRows.1
            (N - (startPaintScroll X N ca ir so rows).invalidatedRows.1)) ∧
    (0 < (startPaintScroll X N ca ir so rows).scrollOffset →
      (startPaintScroll X N ca ir so rows).invalidatedRows =
          (0, (if min ir.1 N = clamp ir.2 (min ir.1 N) N
               then (startPaintScroll X N ca ir so rows).scrollOffset.toNat
               else max (clamp ir.2 (min ir.1 N) N)
                 (startPaintScroll X N ca ir so rows).scrollOffset.toNat)) ∧
      (startPaintScroll X N ca ir so rows).rows =
          clearRowsFrom
            (scrollShiftDown rows (startPaintScroll X N ca ir so rows).scrollOffset.toNat)
            0 (startPaintScroll X N ca ir so rows).invalidatedRows.2) := by
  unfold startPaintScroll
  dsimp only
  set k := clamp so (-((N &&& 0x7fff : Nat) : Int)) ((N &&& 0x7fff : Nat) : Int) with hk
  refine ⟨rfl, rfl, ?_, ?_, ?_⟩
  · intro h0
    simp only [h0, if_pos]
    exact ⟨by trivial, by trivial⟩
  · intro hneg
    have h0 : ¬ (k = 0) := by omega
    simp only [h0, if_neg, hneg, if_pos]
    exact ⟨by trivial, by trivial⟩
  · intro hpos
    have h0 : ¬ (k = 0) := by omega
    have h1 : ¬ (k < 0) := by omega
    simp only [h0, if_neg, h1]
    exact ⟨by trivial, by trivial⟩

lemma startPaintScroll_rows_length (X N : Nat) (ca : U16Rect) (ir : Nat × Nat)
    (so : Int) (rows : List ShapedRow) :
    (startPaintScroll X N ca ir so rows).rows.length = rows.length := by
  obtain ⟨hk, hca, hz, hn, hp⟩ := startPaintScroll_spec X N ca ir so rows
  rcases lt_trichotomy (startPaintScroll X N ca ir so rows).scrollOffset 0 with h | h | h
  · rw [(hn h).2, clearRowsFrom_length, scrollShiftUp_length]
  · rw [(hz h).2, clearRowsFrom_length]
  · rw [(hp h).2, clearRowsFrom_length, scrollShiftDown_length]

lemma clamp_int_bounds (v lo hi : Int) (h : lo ≤ hi) :
    lo ≤ clamp v lo hi ∧ clamp v lo hi ≤ hi := by
  unfold clamp
  omega

lemma land_limit_le (N : Nat) : N &&& 0x7fff ≤ N := Nat.and_le_left

/-- Claim C10: `StartPaint` clamps the invalidated cursor-area rectangle
into the cell grid, the invalidated row range into [0, cellCount.y], and
the scroll offset into [-cellCount.y, cellCount.y], and the subsequent
shift and row-clear loop preserve the row-store length, so only row
indices 0 through cellCount.y - 1 are ever touched. -/
theorem startPaint_clamps_all (X N : Nat) (ca : U16Rect) (ir : Nat × Nat)
    (so : Int) (rows : List ShapedRow) :
    (startPaintScroll X N ca ir so rows).cursorArea.left ≤ X ∧
    (startPaintScroll X N ca ir so rows).cursorArea.left ≤
      (startPaintScroll X N ca ir so rows).cursorArea.right ∧
    (startPaintScroll X N ca ir so rows).cursorArea.right ≤ X ∧
    (startPaintScroll X N ca ir so rows).cursorArea.top ≤ N ∧
    (startPaintScroll X N ca ir so rows).cursorArea.top ≤
      (startPaintScroll X N ca ir so rows).cursorArea.bottom ∧
    (startPaintScroll X N ca ir so rows).cursorArea.bottom ≤ N ∧
    (startPaintScroll X N ca ir so rows).invalidatedRows.1 ≤
      (startPaintScroll X N ca ir so rows).invalidatedRows.2 ∧
    (startPaintScroll X N ca ir so rows).invalidatedRows.2 ≤ N ∧
    -(N : Int) ≤ (startPaintScroll X N ca ir so rows).scrollOffset ∧
    (startPaintScroll X N ca ir so rows).scrollOffset ≤ (N : Int) ∧
    (startPaintScroll X N ca ir so rows).rows.length = rows.length := by
  obtain ⟨hk, hca, hz, hn, hp⟩ := startPaintScroll_spec X N ca ir so rows
  have hL : (N &&& 0x7fff : Nat) ≤ N := land_limit_le N
  have hLL : -(((N &&& 0x7fff : Nat) : Int)) ≤ ((N &&& 0x7fff : Nat) : Int) := by
    have : (0 : Int) ≤ ((N &&& 0x7fff : Nat) : Int) := Int.natCast_nonneg _
    omega
  have hkb := clamp_int_bounds so _ _ hLL
  rw [← hk] at hkb
  have hko : -(N : Int) ≤ (startPaintScroll X N ca ir so rows).scrollOffset ∧
      (startPaintScroll X N ca ir so rows).scrollOffset ≤ (N : Int) := by
    constructor <;> [skip; skip] <;> omega
  have hix0 : min ir.1 N ≤ N := Nat.min_le_right _ _
  have hiy0 : clamp ir.2 (min ir.1 N) N ≤ N := by
    unfold clamp
    omega
  have hixy : min ir.1 N ≤ clamp ir.2 (min ir.1 N) N := by
    unfold clamp
    omega
  refine ⟨?_, ?_, ?_, ?_, ?_, ?_, ?_, ?_, hko.1, hko.2, ?_⟩
  · rw [hca]; exact Nat.min_le_right _ _
  · rw [hca]; exact (by unfold clamp; omega : min ca.left X ≤ clamp ca.right (min ca.left X) X)
  · rw [hca]; exact (by unfold clamp; omega : clamp ca.right (min ca.left X) X ≤ X)
  · rw [hca]; exact Nat.min_le_right _ _
  · rw [hca]; exact (by unfold clamp; omega : min ca.top N ≤ clamp ca.bottom (min ca.top N) N)
  · rw [hca]; exact (by unfold clamp; omega : clamp ca.bottom (min ca.top N) N ≤ N)
  · rcases lt_trichotomy (startPaintScroll X N ca ir so rows).scrollOffset 0 with h | h | h
    · rw [(hn h).1]
      dsimp only
      split
      · exact (Int.toNat_le).mpr (by omega)
      · exact le_trans (Nat.min_le_left _ _) (le_trans (Nat.min_le_right _ _) (by omega))
    · rw [(hz h).1]
      exact hixy
    · rw [(hp h).1]
      exact Nat.zero_le _
  · rcases lt_trichotomy (startPaintScroll X N ca ir so rows).scrollOffset 0 with h | h | h
    · rw [(hn h).1]
    · rw [(hz h).1]
      exact hiy0
    · rw [(hp h).1]
      dsimp only
      split
      · exact (Int.toNat_le).mpr (by omega)
      · exact max_le hiy0 ((Int.toNat_le).mpr (by omega))
  · exact startPaintScroll_rows_length X N ca ir so rows

/-- Claim C3: for a frame with non-zero clamped scroll offset k on an
N-row store, if k < 0 the rows are shifted left by -k, rows [N+k, N) are
cleared and covered by the widened dirty row range (whose end is N), and
every row outside the dirty range holds the moved content of row i - k;
if k > 0 the rows are shifted right by k, rows [0, k) are cleared, the
dirty range starts at 0 and covers at least [0, k), and rows outside it
hold the moved content of row i - k. -/
theorem startPaint_scroll_shift_spec (X N : Nat) (ca : U16Rect) (ir : Nat × Nat)
    (so : Int) (rows : List ShapedRow) (hlen : rows.length = N) :
    ((startPaintScroll X N ca ir so rows).scrollOffset < 0 →
      (startPaintScroll X N ca ir so rows).invalidatedRows.2 = N ∧
      (startPaintScroll X N ca ir so rows).invalidatedRows.1 ≤
        N - (-(startPaintScroll X N ca ir so rows).scrollOffset).toNat ∧
      (∀ i, N - (-(startPaintScroll X N ca ir so rows).scrollOffset).toNat ≤ i → i < N →
        (startPaintScroll X N ca ir so rows).rows[i]? = some ShapedRow.cleared) ∧
      (∀ i, (startPaintScroll X N ca ir so rows).invalidatedRows.1 ≤ i → i < N →
        (startPaintScroll X N ca ir so rows).rows[i]? = some ShapedRow.cleared) ∧
      (∀ i, i < (startPaintScroll X N ca ir so rows).invalidatedRows.1 →
        (startPaintScroll X N ca ir so rows).rows[i]? =
          rows[i + (-(startPaintScroll X N ca ir so rows).scrollOffset).toNat]?)) ∧
    (0 < (startPaintScroll X N ca ir so rows).scrollOffset →
      (startPaintScroll X N ca ir so rows).invalidatedRows.1 = 0 ∧
      (startPaintScroll X N ca ir so rows).scrollOffset.toNat ≤
        (startPaintScroll X N ca ir so rows).invalidatedRows.2 ∧
      (startPaintScroll X N ca ir so rows).invalidatedRows.2 ≤ N ∧
      (∀ i, i < (startPaintScroll X N ca ir so rows).invalidatedRows.2 → i < N →
        (startPaintScroll X N ca ir so rows).rows[i]? = some ShapedRow.cleared) ∧
      (∀ i, (startPaintScroll X N ca ir so rows).invalidatedRows.2 ≤ i → i < N →
        (startPaintScroll X N ca ir so rows).rows[i]? =
          rows[i - (startPaintScroll X N ca ir so rows).scrollOffset.toNat]?)) := by
  obtain ⟨hk, hca, hz, hn, hp⟩ := startPaintScroll_spec X N ca ir so rows
  have hL : (N &&& 0x7fff : Nat) ≤ N := land_limit_le N
  have hLL : -(((N &&& 0x7fff : Nat) : Int)) ≤ ((N &&& 0x7fff : Nat) : Int) := by
    have : (0 : Int) ≤ ((N &&& 0x7fff : Nat) : Int) := Int.natCast_nonneg _
    omega
  have hkb := clamp_int_bounds so _ _ hLL
  rw [← hk] at hkb
  have hix0 : min ir.1 N ≤ N := Nat.min_le_right _ _
  have hiy0 : clamp ir.2 (min ir.1 N) N ≤ N := by unfold clamp; omega
  constructor
  · intro h
    obtain ⟨hinv, hrows⟩ := hn h
    set k := (startPaintScroll X N ca ir so rows).scrollOffset with hks
    set d := (-k).toNat with hd
    have hdN : d ≤ N := by omega
    have hend : ((N : Int) + k).toNat = N - d := by omega
    set ix1 := (startPaintScroll X N ca ir so rows).invalidatedRows.1 with hix1
    have hinv1 : ix1 = (if min ir.1 N = clamp ir.2 (min ir.1 N) N
        then ((N : Int) + k).toNat else min (min ir.1 N) (((N : Int) + k).toNat)) := by
      rw [hix1, hinv]
    have hix1le : ix1 ≤ N - d := by
      rw [hinv1, hend]
      split
      · exact le_refl _
      · exact Nat.min_le_right _ _
    have hinv2 : (startPaintScroll X N ca ir so rows).invalidatedRows.2 = N := by
      rw [hinv]
    have hget : ∀ i, (startPaintScroll X N ca ir so rows).rows[i]? =
        if ix1 ≤ i ∧ i < ix1 + (N - ix1) then
          (if i < rows.length then some ShapedRow.cleared else none)
        else (scrollShiftUp rows d)[i]? := by
      intro i
      rw [hrows, clearRowsFrom_getElem, scrollShiftUp_length]
    refine ⟨hinv2, hix1le, ?_, ?_, ?_⟩
    · intro i h1 h2
      rw [hget i]
      have : ix1 ≤ i ∧ i < ix1 + (N - ix1) := by omega
      simp [this, hlen, h2]
    · intro i h1 h2
      rw [hget i]
      have : ix1 ≤ i ∧ i < ix1 + (N - ix1) := by omega
      simp [this, hlen, h2]
    · intro i h1
      rw [hget i]
      have hni : ¬ (ix1 ≤ i ∧ i < ix1 + (N - ix1)) := by omega
      simp only [hni, if_neg, if_false]
      rw [scrollShiftUp_getElem rows d i (by omega)]
      have : i < rows.length - d := by omega
      simp [this]
  · intro h
    obtain ⟨hinv, hrows⟩ := hp h
    set k := (startPaintScroll X N ca ir so rows).scrollOffset with hks
    set d := k.toNat with hd
    have hdN : d ≤ N := by omega
    set iy1 := (startPaintScroll X N ca ir so rows).invalidatedRows.2 with hiy1
    have hinv2 : iy1 = (if min ir.1 N = clamp ir.2 (min ir.1 N) N
        then d else max (clamp ir.2 (min ir.1 N) N) d) := by
      rw [hiy1, hinv]
    have hdle : d ≤ iy1 := by
      rw [hinv2]
      split
      · exact le_refl _
      · exact le_max_right _ _
    have hiyN : iy1 ≤ N := by
      rw [hinv2]
      split
      · omega
      · exact max_le hiy0 (by omega)
    have hinv1 : (startPaintScroll X N ca ir so rows).invalidatedRows.1 = 0 := by
      rw [hinv]
    have hget : ∀ i, (startPaintScroll X N ca ir so rows).rows[i]? =
        if 0 ≤ i ∧ i < 0 + iy1 then
          (if i < rows.length then some ShapedRow.cleared else none)
        else (scrollShiftDown rows d)[i]? := by
      intro i
      rw [hrows, clearRowsFrom_getElem, scrollShiftDown_length]
    refine ⟨hinv1, hdle, hiyN, ?_, ?_⟩
    · intro i h1 h2
      rw [hget i]
      have : 0 ≤ i ∧ i < 0 + iy1 := by omega
      simp [this, hlen, h2, h1]
    · intro i h1 h2
      rw [hget i]
      have hni : ¬ (0 ≤ i ∧ i < 0 + iy1) := by omega
      simp only [hni, if_neg, if_false]
      rw [scrollShiftDown_getElem rows d i (by omega)]
      have h3 : ¬ i < d := by omega
      simp [h3, hlen, h2]

/-- Claim C6: applying the scroll shift with clamped offset k and then
with offset -k, with no intervening row writes and no caller-supplied
invalidation, restores every row bitwise except the rows uncovered by the
shifts, which end up cleared: for k < 0 rows [0, -k) end up cleared and
the rest restored; for k > 0 rows [N-k, N) end up cleared and the rest
restored; for k = 0 all rows are untouched. -/
theorem startPaint_scroll_roundtrip (X : Nat) (N : Nat) (ca1 ca2 : U16Rect) (k : Int)
    (rows : List ShapedRow) (hlen : rows.length = N) :
    ((startPaintScroll X N ca1 (0, 0) k rows).scrollOffset = 0 →
      (startPaintScroll X N ca2 (0, 0) (-k)
        (startPaintScroll X N ca1 (0, 0) k rows).rows).rows = rows) ∧
    ((startPaintScroll X N ca1 (0, 0) k rows).scrollOffset < 0 →
      ∀ i, i < N →
        (startPaintScroll X N ca2 (0, 0) (-k)
          (startPaintScroll X N ca1 (0, 0) k rows).rows).rows[i]? =
        if i < (-(startPaintScroll X N ca1 (0, 0) k rows).scrollOffset).toNat
        then some ShapedRow.cleared else rows[i]?) ∧
    (0 < (startPaintScroll X N ca1 (0, 0) k rows).scrollOffset →
      ∀ i, i < N →
        (startPaintScroll X N ca2 (0, 0) (-k)
          (startPaintScroll X N ca1 (0, 0) k rows).rows).rows[i]? =
        if N - (startPaintScroll X N ca1 (0, 0) k rows).scrollOffset.toNat ≤ i
        then some ShapedRow.cleared else rows[i]?) := by
  obtain ⟨hk1, -, hz1, hn1, hp1⟩ := startPaintScroll_spec X N ca1 (0, 0) k rows
  obtain ⟨hk2, -, hz2, hn2, hp2⟩ := startPaintScroll_spec X N ca2 (0, 0) (-k)
    (startPaintScroll X N ca1 (0, 0) k rows).rows
  dsimp only at hz1 hn1 hp1 hz2 hn2 hp2
  have hL : (N &&& 0x7fff : Nat) ≤ N := land_limit_le N
  have hLL : (0 : Int) ≤ ((N &&& 0x7fff : Nat) : Int) := Int.natCast_nonneg _
  have hneg : (startPaintScroll X N ca2 (0, 0) (-k)
      (startPaintScroll X N ca1 (0, 0) k rows).rows).scrollOffset =
      -(startPaintScroll X N ca1 (0, 0) k rows).scrollOffset := by
    rw [hk1, hk2]
    unfold clamp
    omega
  have hkb : -(((N &&& 0x7fff : Nat) : Int)) ≤
        (startPaintScroll X N ca1 (0, 0) k rows).scrollOffset ∧
      (startPaintScroll X N ca1 (0, 0) k rows).scrollOffset ≤
        ((N &&& 0x7fff : Nat) : Int) := by
    rw [hk1]
    exact clamp_int_bounds k _ _ (by omega)
  have hlen1 : (startPaintScroll X N ca1 (0, 0) k rows).rows.length = rows.length :=
    startPaintScroll_rows_length X N ca1 (0, 0) k rows
  have hzero1 : min (0 : Nat) N = 0 := Nat.zero_min N
  have hzero2 : clamp (0 : Nat) 0 N = 0 := by
    unfold clamp
    omega
  refine ⟨?_, ?_, ?_⟩
  · -- clamped offset zero: both frames leave the rows alone
    intro h0
    have h02 : (startPaintScroll X N ca2 (0, 0) (-k)
        (startPaintScroll X N ca1 (0, 0) k rows).rows).scrollOffset = 0 := by
      rw [hneg, h0]
      rfl
    obtain ⟨-, hr1⟩ := hz1 h0
    obtain ⟨-, hr2⟩ := hz2 h02
    rw [hr2, hr1, hzero1, hzero2]
    rfl
  · -- scroll up then down: head rows cleared, the rest restored
    intro h0
    set kk := (startPaintScroll X N ca1 (0, 0) k rows).scrollOffset with hkk
    set d := (-kk).toNat with hd
    have hdN : d ≤ N := by omega
    have hd0 : 0 < d := by omega
    obtain ⟨hi1, hr1⟩ := hn1 h0
    have h02 : 0 < (startPaintScroll X N ca2 (0, 0) (-k)
        (startPaintScroll X N ca1 (0, 0) k rows).rows).scrollOffset := by
      rw [hneg]
      try omega
    obtain ⟨hi2, hr2⟩ := hp2 h02
    have hend : ((N : Int) + kk).toNat = N - d := by omega
    have hix1 : (startPaintScroll X N ca1 (0, 0) k rows).invalidatedRows.1 = N - d := by
      rw [hi1]
      dsimp only
      rw [hzero1, hzero2, if_pos (rfl : (0 : Nat) = 0)]
      exact hend
    have hget1 : ∀ j, (startPaintScroll X N ca1 (0, 0) k rows).rows[j]? =
        if j < N - d then rows[j + d]?
        else if j < N then some ShapedRow.cleared
        else none := by
      intro j
      rw [hr1, hix1, clearRowsFrom_getElem, scrollShiftUp_length,
        scrollShiftUp_getElem rows d j (by omega), hlen]
      by_cases hC : N - d ≤ j ∧ j < N - d + (N - (N - d))
      · have hjN : j < N := by omega
        have hj2 : ¬ j < N - d := by omega
        rw [if_pos hC, if_neg hj2, if_pos hjN]
      · rw [if_neg hC]
    have hd2 : (startPaintScroll X N ca2 (0, 0) (-k)
        (startPaintScroll X N ca1 (0, 0) k rows).rows).scrollOffset.toNat = d := by
      rw [hneg]
      try omega
    have hiy2 : (startPaintScroll X N ca2 (0, 0) (-k)
        (startPaintScroll X N ca1 (0, 0) k rows).rows).invalidatedRows.2 = d := by
      rw [hi2]
      dsimp only
      rw [hzero1, hzero2, if_pos (rfl : (0 : Nat) = 0)]
      exact hd2
    intro i hiN
    rw [hr2, hd2, hiy2, clearRowsFrom_getElem, scrollShiftDown_length,
      scrollShiftDown_getElem _ d i (by rw [hlen1, hlen]; omega), hlen1, hlen]
    by_cases hc : i < d
    · have hC : 0 ≤ i ∧ i < 0 + d := by omega
      rw [if_pos hC, if_pos hiN, if_pos hc]
    · have hC : ¬ (0 ≤ i ∧ i < 0 + d) := by omega
      rw [if_neg hC, if_neg hc, if_neg hc, if_pos hiN, hget1 (i - d)]
      have h2 : i - d < N - d := by omega
      have h3 : i - d + d = i := by omega
      rw [if_pos h2, h3]
  · -- scroll down then up: tail rows cleared, the rest restored
    intro h0
    set kk := (startPaintScroll X N ca1 (0, 0) k rows).scrollOffset with hkk
    set d := kk.toNat with hd
    have hdN : d ≤ N := by omega
    have hd0 : 0 < d := by omega
    obtain ⟨hi1, hr1⟩ := hp1 h0
    have h02 : (startPaintScroll X N ca2 (0, 0) (-k)
        (startPaintScroll X N ca1 (0, 0) k rows).rows).scrollOffset < 0 := by
      rw [hneg]
      try omega
    obtain ⟨hi2, hr2⟩ := hn2 h02
    have hiy1 : (startPaintScroll X N ca1 (0, 0) k rows).invalidatedRows.2 = d := by
      rw [hi1]
      dsimp only
      rw [hzero1, hzero2, if_pos (rfl : (0 : Nat) = 0)]
    have hget1 : ∀ j, (startPaintScroll X N ca1 (0, 0) k rows).rows[j]? =
        if j < d then some ShapedRow.cleared
        else if j < N then rows[j - d]?
        else none := by
      intro j
      rw [hr1, hiy1, clearRowsFrom_getElem, scrollShiftDown_length,
        scrollShiftDown_getElem rows d j (by omega), hlen]
      by_cases hC : 0 ≤ j ∧ j < 0 + d
      · have hjN : j < N := by omega
        have hjd : j < d := by omega
        rw [if_pos hC, if_pos hjN, if_pos hjd]
      · rw [if_neg hC]
    have hd2 : (-(startPaintScroll X N ca2 (0, 0) (-k)
        (startPaintScroll X N ca1 (0, 0) k rows).rows).scrollOffset).toNat = d := by
      rw [hneg]
      try omega
    have hend2 : ((N : Int) + (startPaintScroll X N ca2 (0, 0) (-k)
        (startPaintScroll X N ca1 (0, 0) k rows).rows).scrollOffset).toNat = N - d := by
      rw [hneg]
      try omega
    have hix2 : (startPaintScroll X N ca2 (0, 0) (-k)
        (startPaintScroll X N ca1 (0, 0) k rows).rows).invalidatedRows.1 = N - d := by
      rw [hi2]
      dsimp only
      rw [hzero1, hzero2, if_pos (rfl : (0 : Nat) = 0)]
      exact hend2
    intro i hiN
    rw [hr2, hd2, hix2, clearRowsFrom_getElem, scrollShiftUp_length,
      scrollShiftUp_getElem _ d i (by rw [hlen1, hlen]; omega), hlen1, hlen]
    by_cases hc : N - d ≤ i
    · have hC : N - d ≤ i ∧ i < N - d + (N - (N - d)) := by omega
      rw [if_pos hC, if_pos hiN, if_pos hc]
    · have hC : ¬ (N - d ≤ i ∧ i < N - d + (N - (N - d))) := by omega
      have h2 : i < N - d := by omega
      rw [if_neg hC, if_neg hc, if_pos h2, hget1 (i + d)]
      have h3 : ¬ i + d < d := by omega
      have h4 : i + d < N := by omega
      have h5 : i + d - d = i := by omega
      rw [if_neg h3, if_pos h4, h5]

/-- Witness for C3 on the spec's example scenario: scroll offset -2 on a
5-row store. -/
theorem startPaint_scroll_shift_spec_witness :
    (startPaintScroll 10 5 caZero (0, 0) (-2) rows5).rows[0]? = some (rowTag 2) ∧
    (startPaintScroll 10 5 caZero (0, 0) (-2) rows5).rows[3]? = some ShapedRow.cleared ∧
    (startPaintScroll 10 5 caZero (0, 0) (-2) rows5).invalidatedRows = (3, 5) := by
  have h := (startPaint_scroll_shift_spec 10 5 caZero (0, 0) (-2) rows5 (by rfl)).1
    (by decide)
  obtain ⟨hinv2, hle, hcl, hcl2, hmv⟩ := h
  refine ⟨?_, ?_, ?_⟩
  · have h0 := hmv 0 (by decide)
    rw [h0]
    decide
  · have h3 := hcl2 3 (by decide) (by decide)
    exact h3
  · decide

/-- Witness for C6: offset -2 then +2 on a 5-row store clears rows 0-1
and restores the rest. -/
theorem startPaint_scroll_roundtrip_witness :
    (startPaintScroll 10 5 caZero (0, 0) (-(-2))
      (startPaintScroll 10 5 caZero (0, 0) (-2) rows5).rows).rows[0]? =
        some ShapedRow.cleared ∧
    (startPaintScroll 10 5 caZero (0, 0) (-(-2))
      (startPaintScroll 10 5 caZero (0, 0) (-2) rows5).rows).rows[4]? =
        some (rowTag 4) := by
  have h := (startPaint_scroll_roundtrip 10 5 caZero caZero (-2) rows5 (by rfl)).2.1
    (by decide)
  constructor
  · have h0 := h 0 (by decide)
    rw [h0]
    decide
  · have h4 := h 4 (by decide)
    rw [h4]
    decide

/-- Claim C9: `_handleException` on DXGI_ERROR_DEVICE_REMOVED,
DXGI_ERROR_DEVICE_RESET or D2DERR_RECREATE_TARGET resets the DXGI factory
and the backend and returns E_PENDING; on every other HRESULT it leaves
the resources alone, forwards the code to the warning callback when one is
set, and returns the code itself as the status. -/
theorem handleException_spec (hr : Nat) (res : EngineResources)
    (warningLog : Option (List Nat)) :
    ((hr = DXGI_ERROR_DEVICE_REMOVED ∨ hr = DXGI_ERROR_DEVICE_RESET ∨
        hr = D2DERR_RECREATE_TARGET) →
      handleException hr res warningLog =
        { status := E_PENDING
          resources := { dxgiFactory := false, backend := false }
          warningLog := warningLog }) ∧
    (¬ (hr = DXGI_ERROR_DEVICE_REMOVED ∨ hr = DXGI_ERROR_DEVICE_RESET ∨
        hr = D2DERR_RECREATE_TARGET) →
      (handleException hr res warningLog).status = hr ∧
      (handleException hr res warningLog).resources = res ∧
      (handleException hr res warningLog).warningLog =
        warningLog.map (fun log => log ++ [hr])) := by
  constructor
  · intro h
    unfold handleException
    rw [if_pos h]
  · intro h
    unfold handleException
    rw [if_neg h]
    exact ⟨rfl, rfl, rfl⟩

/-- Witness for C9 at the concrete codes DXGI_ERROR_DEVICE_REMOVED and 1. -/
theorem handleException_spec_witness :
    handleException DXGI_ERROR_DEVICE_REMOVED
        { dxgiFactory := true, backend := true } (some []) =
      { status := E_PENDING
        resources := { dxgiFactory := false, backend := false }
        warningLog := some [] } ∧
    (handleException 1 { dxgiFactory := true, backend := true } (some [])).status = 1 := by
  constructor
  · exact (handleException_spec DXGI_ERROR_DEVICE_REMOVED
      { dxgiFactory := true, backend := true } (some [])).1 (Or.inl rfl)
  · exact ((handleException_spec 1
      { dxgiFactory := true, backend := true } (some [])).2 (by decide)).1

lemma foldl_text_append (rs : List Cluster) :
    ∀ a : List Nat, rs.foldl (fun l cl => l ++ cl.text) a =
      a ++ rs.foldl (fun l cl => l ++ cl.text) [] := by
  induction rs with
  | nil => intro a; simp
  | cons r rest ih =>
    intro a
    rw [List.foldl_cons, List.foldl_cons, ih (a ++ r.text), ih ([] ++ r.text)]
    simp

lemma foldl_text_fst (clusters : List Cluster) :
    ∀ (a : List Nat) (b : List Nat) (c : Nat),
      (clusters.foldl
        (fun acc cl =>
          (acc.1 ++ cl.text, acc.2.1 ++ List.replicate cl.text.length acc.2.2,
           acc.2.2 + cl.columns))
        (a, b, c)).1 = a ++ clustersText clusters := by
  induction clusters with
  | nil => intro a b c; simp [clustersText]
  | cons cl rest ih =>
    intro a b c
    rw [List.foldl_cons]
    show (rest.foldl _ (a ++ cl.text, b ++ List.replicate cl.text.length c,
      c + cl.columns)).1 = _
    rw [ih]
    show a ++ cl.text ++ clustersText rest = a ++ clustersText (cl :: rest)
    unfold clustersText
    rw [List.foldl_cons, foldl_text_append rest ([] ++ cl.text)]
    simp

/-- Claim C4 (amended): `PaintBufferLine` targeting a different row than
the previous paint call flushes the pending buffer line before the new
clusters are accumulated (the accumulator afterwards holds exactly the new
text), while targeting the same row appends to the pending line; and
`UpdateDrawingBrushes` flushes when the bold/italic attribute state
changes, but a color-only change updates the current color without
flushing (per-column colors are recorded eagerly instead). -/
theorem paint_flush_boundaries (cellCountX cellCountY : Nat) (s : ApiState)
    (clusters : List Cluster) (coordX coordY : Int)
    (fg bg : Nat) (attrs : AtlasKeyAttributes) :
    (((clamp coordY 0 (cellCountY : Int)).toNat ≠ s.lastPaintBufferLineCoordY) →
      (paintBufferLine cellCountX cellCountY s clusters coordX coordY).bufferLine =
        clustersText clusters) ∧
    (((clamp coordY 0 (cellCountY : Int)).toNat = s.lastPaintBufferLineCoordY) →
      (paintBufferLine cellCountX cellCountY s clusters coordX coordY).bufferLine =
        s.bufferLine ++ clustersText clusters) ∧
    ((s.attributes ≠ attrs) →
      (updateDrawingBrushes s fg bg attrs false).bufferLine = [] ∧
      (updateDrawingBrushes s fg bg attrs false).attributes = attrs) ∧
    ((s.attributes = attrs) →
      (updateDrawingBrushes s fg bg attrs false).bufferLine = s.bufferLine ∧
      (updateDrawingBrushes s fg bg attrs false).currentColorFg = fg ||| 0xff000000 ∧
      (updateDrawingBrushes s fg bg attrs false).attributes = attrs) := by
  refine ⟨?_, ?_, ?_, ?_⟩
  · intro h
    unfold paintBufferLine
    dsimp only
    rw [if_pos (fun heq => h heq.symm)]
    show ((clusters.foldl _ ((flushBufferLineAccum s).bufferLine, _, _)).1 :
      List Nat) = _
    rw [foldl_text_fst]
    unfold flushBufferLineAccum
    by_cases he : s.bufferLine.isEmpty
    · rw [if_pos he]
      try dsimp only
      rw [List.isEmpty_iff.mp he]
      rfl
    · rw [if_neg he]
      rfl
  · intro h
    unfold paintBufferLine
    try dsimp only
    rw [if_neg (fun hne => hne h.symm)]
    show ((clusters.foldl _ (s.bufferLine, _, _)).1 : List Nat) = _
    rw [foldl_text_fst]
  · intro h
    unfold updateDrawingBrushes
    simp only [Bool.not_false, if_true]
    rw [if_pos h]
    unfold flushBufferLineAccum
    by_cases he : s.bufferLine.isEmpty
    · rw [if_pos he]
      exact ⟨List.isEmpty_iff.mp he, by trivial⟩
    · rw [if_neg he]
      exact ⟨by trivial, by trivial⟩
  · intro h
    unfold updateDrawingBrushes
    simp only [Bool.not_false, if_true]
    rw [if_neg (fun hne => hne h)]
    exact ⟨by trivial, by trivial, by trivial⟩

/-- Claim C2, counterexample: for the column layout [0, 2] (one simple
character occupying two cells, past-the-end column 2) and cell width 10,
the code computes the glyph advance as 1 x 10 = 10 (the forward-scan
distance in character index space), not the cell-column delta
(2 - 0) x 10 = 20 demanded by the claim. -/
theorem simple_advance_is_scan_count_not_column_delta :
    simpleGlyphAdvance [0, 2] 10 0 = some 10 ∧ ((10 : ℚ) ≠ (2 - 0 : ℚ) * 10) := by
  constructor
  · simp [simpleGlyphAdvance, scanFor]
  · norm_num

/-- Claim C2 (amended): in the simple-text path each glyph advance equals
j x cellWidth where j is the number of characters scanned forward to the
next distinct column value (the index distance, not the column delta);
consequently, when every character in the span occupies exactly one cell
(consecutive columns increase by 1), the sum of the span's advances equals
(cells consumed) x cellWidth. -/
theorem appendSimpleSpan_advances (cols : List Nat) (colorsFg : Nat → Nat)
    (gi : List Nat) (cw : ℚ) (idx : Nat) (L : Nat) (row row2 : ShapedRow)
    (h : appendSimpleSpan cols colorsFg gi cw idx L row = some row2) :
    (row2.glyphAdvances.length = row.glyphAdvances.length + L) ∧
    (∀ i, i < L → ∃ c j, cols[idx + i]? = some c ∧
        scanFor c (cols.drop (idx + i + 1)) = some j ∧
        row2.glyphAdvances[row.glyphAdvances.length + i]? = some ((j : ℚ) * cw)) ∧
    ((∀ i, i < L → ∃ c, cols[idx + i]? = some c ∧ cols[idx + i + 1]? = some (c + 1)) →
      (row2.glyphAdvances.drop row.glyphAdvances.length).sum = (L : ℚ) * cw ∧
      (∀ c0 cL, cols[idx]? = some c0 → cols[idx + L]? = some cL → cL = c0 + L)) := by
  induction L generalizing row2 with
  | zero =>
    rw [appendSimpleSpan] at h
    obtain rfl : row = row2 := by injection h
    refine ⟨by omega, by omega, ?_⟩
    intro _
    refine ⟨?_, ?_⟩
    · rw [List.drop_length]
      simp
    · intro c0 cL h0 hL
      rw [Nat.add_zero] at hL
      rw [h0] at hL
      injection hL with hL2
      omega
  | succ L ih =>
    rw [appendSimpleSpan] at h
    cases hrow1 : appendSimpleSpan cols colorsFg gi cw idx L row with
    | none => rw [hrow1] at h; simp at h
    | some row1 =>
      rw [hrow1] at h
      rw [Option.bind_eq_bind, Option.some_bind] at h
      obtain ⟨hlen1, hadv1, hsum1⟩ := ih row1 hrow1
      unfold appendSimpleChar at h
      cases hcol : cols[idx + L]? with
      | none => rw [hcol] at h; simp at h
      | some c =>
        rw [hcol] at h
        cases hga : simpleGlyphAdvance cols cw (idx + L) with
        | none => rw [hga] at h; simp at h
        | some adv =>
          rw [hga] at h
          cases hg : gi[L]? with
          | none => rw [hg] at h; simp at h
          | some g =>
            rw [hg] at h
            simp only [Option.bind_eq_bind, Option.some_bind, Option.some.injEq] at h
            subst h
            obtain ⟨cc, hcc, hj⟩ : ∃ cc, cols[idx + L]? = some cc ∧
                (scanFor cc (cols.drop (idx + L + 1))).map
                  (fun j => (j : ℚ) * cw) = some adv := by
              unfold simpleGlyphAdvance at hga
              rw [hcol] at hga
              exact ⟨c, hcol, hga⟩
            rw [hcol] at hcc
            injection hcc with hcc
            subst hcc
            cases hsf : scanFor c (cols.drop (idx + L + 1)) with
            | none =>
              rw [hsf] at hj
              exact Option.noConfusion hj
            | some j =>
              rw [hsf] at hj
              have hj : ((j : Nat) : ℚ) * cw = adv := by injection hj
              refine ⟨?_, ?_, ?_⟩
              · simp only [List.length_append, List.length_cons, List.length_nil]
                omega
              · intro i hi
                by_cases hiL : i < L
                · obtain ⟨c2, j2, hc2, hj2, hv2⟩ := hadv1 i hiL
                  refine ⟨c2, j2, hc2, hj2, ?_⟩
                  simp only
                  rw [List.getElem?_append, if_pos (by omega)]
                  exact hv2
                · have hieq : i = L := by omega
                  subst hieq
                  refine ⟨c, j, hcol, hsf, ?_⟩
                  simp only
                  rw [List.getElem?_append_right (by omega)]
                  rw [hlen1]
                  have : row.glyphAdvances.length + i - (row.glyphAdvances.length + i) = 0 := by
                    omega
                  rw [this]
                  simp [hj]
              · intro hnarrow
                obtain ⟨hsum, hchain⟩ := hsum1 (fun i hi => hnarrow i (by omega))
                have hdrop : ({ row1 with
                    glyphIndices := row1.glyphIndices ++ [g]
                    glyphAdvances := row1.glyphAdvances ++ [adv]
                    glyphOffsets := row1.glyphOffsets ++
                      [{ advanceOffset := 0, ascenderOffset := 0 }]
                    colors := row1.colors ++ [colorsFg c] } :
                    ShapedRow).glyphAdvances.drop row.glyphAdvances.length =
                    (row1.glyphAdvances.drop row.glyphAdvances.length) ++ [adv] := by
                  simp only
                  rw [List.drop_append_of_le_length (by omega)]
                have hj1 : j = 1 := by
                  obtain ⟨ce, hce, hce2⟩ := hnarrow L (by omega)
                  rw [hcol] at hce
                  injection hce with hce
                  subst hce
                  have hlt : idx + L + 1 < cols.length := by
                    by_contra hc2
                    rw [List.getElem?_eq_none (by omega)] at hce2
                    exact Option.noConfusion hce2
                  have hdropc : cols.drop (idx + L + 1) =
                      cols[idx + L + 1] :: cols.drop (idx + L + 2) := by
                    exact List.drop_eq_getElem_cons hlt
                  have hcv : cols[idx + L + 1] = c + 1 := by
                    have := List.getElem?_eq_getElem hlt
                    rw [this] at hce2
                    injection hce2
                  rw [hdropc, hcv] at hsf
                  unfold scanFor at hsf
                  rw [if_neg (by omega)] at hsf
                  injection hsf with hsf
                  omega
                constructor
                · rw [hdrop, List.sum_append]
                  rw [hsum, ← hj, hj1]
                  simp only [List.sum_cons, List.sum_nil, add_zero]
                  push_cast
                  ring
                · intro c0 cL h0 hL
                  obtain ⟨ce, hce, hce2⟩ := hnarrow L (by omega)
                  rw [hcol] at hce
                  injection hce with hce
                  subst hce
                  have hmid := hchain c0 c h0 hcol
                  have : idx + (L + 1) = idx + L + 1 := by omega
                  rw [this] at hL
                  rw [hce2] at hL
                  injection hL with hL
                  omega

/-- Witness for C2 on the spec's example: two one-cell characters at
columns [0, 1] with cell width 10 produce advances summing to 20. -/
theorem appendSimpleSpan_advances_witness :
    (c2Row.glyphAdvances.drop ShapedRow.cleared.glyphAdvances.length).sum =
      (2 : ℚ) * 10 ∧
    c2Row.glyphAdvances.length = ShapedRow.cleared.glyphAdvances.length + 2 := by
  have h := appendSimpleSpan_advances c2Cols (fun _ => 5) [11, 12] 10 0 2
    ShapedRow.cleared c2Row rfl
  have hnarrow : ∀ i, i < 2 →
      ∃ c, c2Cols[0 + i]? = some c ∧ c2Cols[0 + i + 1]? = some (c + 1) := by
    intro i hi
    interval_cases i
    · exact ⟨0, rfl, rfl⟩
    · exact ⟨1, rfl, rfl⟩
  exact ⟨(h.2.2 hnarrow).1, h.1⟩

/-- Claim C8, counterexample: a complex run whose cluster map does not
start at glyph 0 (clusterMap = [2] for one character shaping to three
glyphs) appends 3 glyph indices/advances/offsets but only 1 color to the
row, breaking the parallel-array length invariant which the claim asserts
for exactly such inputs. -/
theorem complexSpan_nonzero_start_unbalanced :
    ((appendComplexSpan ShapedRow.cleared [0, 1] 0 (fun _ => 0) 10 [2] 1 3
        [10, 11, 12] [1, 1, 1] [zeroOffset, zeroOffset, zeroOffset]).map
      (fun r => (r.glyphIndices.length, r.glyphAdvances.length,
        r.glyphOffsets.length, r.colors.length))) = some (3, 3, 3, 1) := by
  rfl

/-- Claim C5, counterexample: on a right-to-left (decreasing) cluster map
[2, 1] the complex-span correction step faults (the C++ writes
`glyphAdvances[nextCluster - 1]` and calls `colors.insert` with the
negative count `nextCluster - prevCluster`), so no corrected advances
satisfying the claimed per-cluster sums exist. -/
theorem complexSpan_decreasing_map_faults :
    appendComplexSpan ShapedRow.cleared [0, 1, 2] 0 (fun _ => 0) 10 [2, 1] 2 3
      [10, 11, 12] [1, 5, 2] [zeroOffset, zeroOffset, zeroOffset] = none := by
  rfl

lemma mapM_getElem_range (advs : List ℚ) :
    ∀ (cnt lo : Nat), lo + cnt ≤ advs.length →
      ((List.range' lo cnt).mapM (fun j => advs[j]?)) =
        some ((List.range' lo cnt).map (fun j => advs.getD j 0)) := by
  intro cnt
  induction cnt with
  | zero => intro lo _; rfl
  | succ n ih =>
    intro lo hlo
    rw [List.range'_succ]
    rw [List.mapM_cons, ih (lo + 1) (by omega)]
    have hlt : lo < advs.length := by omega
    rw [List.getElem?_eq_getElem hlt]
    simp [List.getD_eq_getElem?_getD, List.getElem?_eq_getElem hlt]

lemma sumRange_eq_sumOver (advs : List ℚ) (lo hi : Nat) (hhi : hi ≤ advs.length) :
    sumRange advs lo hi = some (sumOver advs lo hi) := by
  unfold sumRange sumOver
  by_cases hle : hi ≤ lo
  · have h0 : hi - lo = 0 := by omega
    rw [h0]
    rfl
  · rw [mapM_getElem_range advs (hi - lo) lo (by omega)]
    rfl

lemma sumOver_congr (a1 a2 : List ℚ) (lo hi : Nat)
    (h : ∀ j, lo ≤ j → j < hi → a1.getD j 0 = a2.getD j 0) :
    sumOver a1 lo hi = sumOver a2 lo hi := by
  unfold sumOver
  congr 1
  apply List.map_congr_left
  intro j hj
  rw [List.mem_range'] at hj
  exact h j (by omega) (by omega)

lemma getD_set_self (advs : List ℚ) (k : Nat) (v : ℚ) (h : k < advs.length) :
    (advs.set k v).getD k 0 = v := by
  simp [List.getD_eq_getElem?_getD, List.getElem?_set_self h]

lemma getD_set_ne (advs : List ℚ) (k j : Nat) (v : ℚ) (h : k ≠ j) :
    (advs.set k v).getD j 0 = advs.getD j 0 := by
  simp [List.getD_eq_getElem?_getD, List.getElem?_set_ne h]

lemma sumOver_set_inside (advs : List ℚ) (k : Nat) (v : ℚ) :
    ∀ (cnt lo : Nat), lo ≤ k → k < lo + cnt → k < advs.length →
      sumOver (advs.set k v) lo (lo + cnt) =
        sumOver advs lo (lo + cnt) - advs.getD k 0 + v := by
  intro cnt
  induction cnt with
  | zero => intro lo h1 h2 _; exact absurd h2 (by omega)
  | succ n ih =>
    intro lo h1 h2 hk
    unfold sumOver
    have hsub : lo + (n + 1) - lo = n + 1 := by omega
    rw [hsub, List.range'_succ]
    simp only [List.map_cons, List.sum_cons]
    by_cases hke : k = lo
    · subst hke
      rw [getD_set_self advs k v hk]
      have htail : ((List.range' (k + 1) n).map (fun j => (advs.set k v).getD j 0)).sum =
          ((List.range' (k + 1) n).map (fun j => advs.getD j 0)).sum := by
        congr 1
        apply List.map_congr_left
        intro j hj
        rw [List.mem_range'] at hj
        exact getD_set_ne advs k j v (by omega)
      rw [htail]
      ring
    · rw [getD_set_ne advs k lo v hke]
      have hih := ih (lo + 1) (by omega) (by omega) hk
      unfold sumOver at hih
      have hsub2 : lo + 1 + n - (lo + 1) = n := by omega
      rw [hsub2] at hih
      rw [hih]
      ring

lemma sumOver_set_inside2 (advs : List ℚ) (k : Nat) (v : ℚ) (lo hi : Nat)
    (h1 : lo ≤ k) (h2 : k < hi) (h3 : k < advs.length) :
    sumOver (advs.set k v) lo hi = sumOver advs lo hi - advs.getD k 0 + v := by
  have h := sumOver_set_inside advs k v (hi - lo) lo h1 (by omega) h3
  rw [show lo + (hi - lo) = hi from by omega] at h
  exact h

lemma chain_le_getD (mapW : List Nat) (hmono : mapW.Chain' (· ≤ ·)) :
    ∀ a b, a ≤ b → b < mapW.length → mapW.getD a 0 ≤ mapW.getD b 0 := by
  intro a b hab hb
  rcases Nat.eq_or_lt_of_le hab with rfl | hlt
  · exact le_refl _
  · have hp := List.chain'_iff_pairwise.mp hmono
    have := List.pairwise_iff_getElem.mp hp a b (by omega) hb hlt
    rw [List.getD_eq_getElem?_getD, List.getD_eq_getElem?_getD,
      List.getElem?_eq_getElem (by omega : a < mapW.length),
      List.getElem?_eq_getElem hb]
    exact this

lemma clusterIntervals_bounds (mapW : List Nat) :
    ∀ (n i beg : Nat), beg < i →
      ∀ be ∈ clusterIntervals mapW i n beg,
        beg ≤ be.1 ∧ be.1 < be.2 ∧ be.2 < i + n := by
  intro n
  induction n with
  | zero => intro i beg _ be hbe; simp [clusterIntervals] at hbe
  | succ n ih =>
    intro i beg hbeg be hbe
    rw [clusterIntervals] at hbe
    by_cases hc : mapW.getD beg 0 = mapW.getD i 0
    · rw [if_pos hc] at hbe
      have := ih (i + 1) beg (by omega) be hbe
      exact ⟨this.1, this.2.1, by omega⟩
    · rw [if_neg hc] at hbe
      rcases List.mem_cons.mp hbe with rfl | hbe2
      · exact ⟨le_refl _, hbeg, by omega⟩
      · have := ih (i + 1) i (by omega) be hbe2
        exact ⟨by omega, this.2.1, by omega⟩

lemma getElem?_eq_some_getD (l : List Nat) (i : Nat) (h : i < l.length) :
    l[i]? = some (l.getD i 0) := by
  rw [List.getD_eq_getElem?_getD, List.getElem?_eq_getElem h]
  rfl

lemma complexLoopGo_spec (cols : List Nat) (pos : Nat) (colorsFg : Nat → Nat)
    (cw : ℚ) (mapW : List Nat) (hmono : mapW.Chain' (· ≤ ·))
    (hcols : pos + (mapW.length - 1) < cols.length) :
    ∀ (n i : Nat) (st : ComplexLoopState),
      i + n = mapW.length → 1 ≤ i → st.beg < i →
      st.prevCluster = mapW.getD (i - 1) 0 →
      mapW.getD st.beg 0 = st.prevCluster →
      (∀ j, j < mapW.length → mapW.getD j 0 ≤ st.advs.length) →
      ∃ st2, complexLoopGo cols pos colorsFg cw mapW i n st = some st2 ∧
        st2.advs.length = st.advs.length ∧
        st2.prevCluster = mapW.getD (mapW.length - 1) 0 ∧
        st2.colorsAcc.length = st.colorsAcc.length +
          (mapW.getD (mapW.length - 1) 0 - st.prevCluster) ∧
        (∀ j, j < st.prevCluster → st2.advs.getD j 0 = st.advs.getD j 0) ∧
        (∀ be ∈ clusterIntervals mapW i n st.beg,
          sumOver st2.advs (mapW.getD be.1 0) (mapW.getD be.2 0) =
            ((cols.getD (pos + be.2) 0 : ℚ) - (cols.getD (pos + be.1) 0 : ℚ)) * cw ∧
          ∀ j, mapW.getD be.1 0 ≤ j → j + 1 < mapW.getD be.2 0 →
            st2.advs.getD j 0 = st.advs.getD j 0) := by
  intro n
  induction n with
  | zero =>
    intro i st hi h1i hbeg hprev hbegv hadvs
    refine ⟨st, rfl, rfl, ?_, ?_, fun j _ => rfl, ?_⟩
    · rw [hprev]
      congr 1
      omega
    · rw [hprev]
      have : mapW.length - 1 = i - 1 := by omega
      rw [this]
      omega
    · intro be hbe
      simp [clusterIntervals] at hbe
  | succ n ih =>
    intro i st hi h1i hbeg hprev hbegv hadvs
    have hilt : i < mapW.length := by omega
    have hnext : mapW[i]? = some (mapW.getD i 0) := getElem?_eq_some_getD mapW i hilt
    rw [complexLoopGo, hnext]
    rw [Option.bind_eq_bind, Option.some_bind]
    by_cases heq : st.prevCluster = mapW.getD i 0
    · -- no cluster boundary at i: the loop body is a no-op
      have hstep : clusterStep cols pos colorsFg cw st i (mapW.getD i 0) = some st := by
        unfold clusterStep
        rw [if_pos heq]
      rw [hstep, Option.bind_eq_bind, Option.some_bind]
      obtain ⟨st2, hrun, hlen, hprev2, hcol2, hunch, hints⟩ :=
        ih (i + 1) st (by omega) (by omega) (by omega)
          (by rw [heq]; congr 1) hbegv hadvs
      refine ⟨st2, hrun, hlen, hprev2, hcol2, hunch, ?_⟩
      rw [clusterIntervals, if_pos (by rw [hbegv, heq])]
      exact hints
    · -- cluster boundary: correction is applied to glyph (next - 1)
      have hprevle : st.prevCluster ≤ mapW.getD i 0 := by
        rw [← hbegv]
        exact chain_le_getD mapW hmono st.beg i (by omega) hilt
      have hprevlt : st.prevCluster < mapW.getD i 0 := by omega
      have hnextle : mapW.getD i 0 ≤ st.advs.length := hadvs i hilt
      have hcol1 : cols[pos + st.beg]? = some (cols.getD (pos + st.beg) 0) :=
        getElem?_eq_some_getD cols _ (by omega)
      have hcol2r : cols[pos + i]? = some (cols.getD (pos + i) 0) :=
        getElem?_eq_some_getD cols _ (by omega)
      have hsr : sumRange st.advs st.prevCluster (mapW.getD i 0) =
          some (sumOver st.advs st.prevCluster (mapW.getD i 0)) :=
        sumRange_eq_sumOver _ _ _ hnextle
      have hstep : clusterStep cols pos colorsFg cw st i (mapW.getD i 0) =
          some { beg := i, prevCluster := mapW.getD i 0
                 advs := st.advs.set (mapW.getD i 0 - 1)
                   ((st.advs.getD (mapW.getD i 0 - 1) 0) +
                     (((cols.getD (pos + i) 0 : ℚ) -
                       (cols.getD (pos + st.beg) 0 : ℚ)) * cw -
                      sumOver st.advs st.prevCluster (mapW.getD i 0)))
                 colorsAcc := st.colorsAcc ++
                   List.replicate (mapW.getD i 0 - st.prevCluster)
                     (colorsFg (cols.getD (pos + st.beg) 0)) } := by
        unfold clusterStep
        rw [if_neg heq, hcol1, hcol2r]
        dsimp only
        rw [hsr]
        dsimp only
        rw [if_pos (And.intro (show 1 ≤ mapW.getD i 0 by omega)
          (show mapW.getD i 0 - 1 < st.advs.length by omega))]
        rw [if_pos hprevle]
      rw [hstep, Option.bind_eq_bind, Option.some_bind]
      set stM : ComplexLoopState :=
        { beg := i, prevCluster := mapW.getD i 0
          advs := st.advs.set (mapW.getD i 0 - 1)
            ((st.advs.getD (mapW.getD i 0 - 1) 0) +
              (((cols.getD (pos + i) 0 : ℚ) -
                (cols.getD (pos + st.beg) 0 : ℚ)) * cw -
               sumOver st.advs st.prevCluster (mapW.getD i 0)))
          colorsAcc := st.colorsAcc ++
            List.replicate (mapW.getD i 0 - st.prevCluster)
              (colorsFg (cols.getD (pos + st.beg) 0)) } with hstM
      have hstMbeg : stM.beg = i := rfl
      have hstMprev : stM.prevCluster = mapW.getD i 0 := rfl
      have hstMadvs : stM.advs = st.advs.set (mapW.getD i 0 - 1)
          ((st.advs.getD (mapW.getD i 0 - 1) 0) +
            (((cols.getD (pos + i) 0 : ℚ) -
              (cols.getD (pos + st.beg) 0 : ℚ)) * cw -
             sumOver st.advs st.prevCluster (mapW.getD i 0))) := rfl
      have hstMcolors : stM.colorsAcc = st.colorsAcc ++
          List.replicate (mapW.getD i 0 - st.prevCluster)
            (colorsFg (cols.getD (pos + st.beg) 0)) := rfl
      have hlenM : stM.advs.length = st.advs.length := by
        rw [hstMadvs]
        exact List.length_set _ _ _
      obtain ⟨st2, hrun, hlen, hprev2, hcol2, hunch, hints⟩ :=
        ih (i + 1) stM (by omega) (by omega)
          (by rw [hstMbeg]; omega)
          (by rw [hstMprev]; congr 1)
          (by rw [hstMbeg, hstMprev])
          (by intro j hj; rw [hlenM]; exact hadvs j hj)
      have hfinal_ge : mapW.getD i 0 ≤ mapW.getD (mapW.length - 1) 0 :=
        chain_le_getD mapW hmono i (mapW.length - 1) (by omega) (by omega)
      refine ⟨st2, hrun, by rw [hlen, hlenM], hprev2, ?_, ?_, ?_⟩
      · rw [hcol2, hstMcolors, hstMprev]
        simp only [List.length_append, List.length_replicate]
        omega
      · intro j hj
        rw [hunch j (by rw [hstMprev]; omega), hstMadvs]
        exact getD_set_ne _ _ _ _ (by omega)
      · intro be hbe
        rw [clusterIntervals, if_neg (by rw [hbegv]; exact heq)] at hbe
        rcases List.mem_cons.mp hbe with rfl | hbe2
        · -- the interval closed at i itself
          dsimp only
          constructor
          · have hagree : sumOver st2.advs (mapW.getD st.beg 0) (mapW.getD i 0) =
                sumOver stM.advs (mapW.getD st.beg 0) (mapW.getD i 0) := by
              apply sumOver_congr
              intro j _ hj2
              exact hunch j (by rw [hstMprev]; omega)
            rw [hagree, hbegv, hstMadvs]
            rw [sumOver_set_inside2 st.advs (mapW.getD i 0 - 1) _
              st.prevCluster (mapW.getD i 0) (by omega) (by omega) (by omega)]
            ring
          · intro j hj1 hj2
            rw [hbegv] at hj1
            rw [hunch j (by rw [hstMprev]; omega), hstMadvs]
            exact getD_set_ne _ _ _ _ (by omega)
        · -- an interval strictly after i
          obtain ⟨hb1, hb2, hb3⟩ :=
            clusterIntervals_bounds mapW n (i + 1) i (by omega) be hbe2
          obtain ⟨hsum, hunch2⟩ := hints be hbe2
          refine ⟨hsum, ?_⟩
          intro j hj1 hj2
          have hbe1len : be.1 < mapW.length := by omega
          have hge : mapW.getD i 0 ≤ mapW.getD be.1 0 :=
            chain_le_getD mapW hmono i be.1 (by omega) hbe1len
          rw [hunch2 j hj1 hj2, hstMadvs]
          exact getD_set_ne _ _ _ _ (by omega)

lemma getD_take (l : List ℚ) (G j : Nat) (h : j < G) :
    (l.take G).getD j 0 = l.getD j 0 := by
  rw [List.getD_eq_getElem?_getD, List.getD_eq_getElem?_getD, List.getElem?_take]
  rw [if_pos h]

lemma mapW_getD_last (map0 : List Nat) (T G : Nat) (hmap0 : map0.length = T) :
    (map0.take T ++ [G]).getD T 0 = G := by
  rw [List.getD_eq_getElem?_getD, List.getElem?_append_right
    (by rw [List.length_take]; omega)]
  rw [List.length_take]
  have : T - min T map0.length = 0 := by omega
  rw [this]
  rfl

lemma mapW_length (map0 : List Nat) (T G : Nat) (hmap0 : map0.length = T) :
    (map0.take T ++ [G]).length = T + 1 := by
  simp [List.length_take]
  omega

/-- Claim C5 (amended): for a complex span whose cluster map (with the
appended actualGlyphCount) is non-decreasing, every output cluster's
post-correction glyph advances sum to (targetColumnDelta x cellWidth)
exactly, and every glyph advance of the cluster other than the last one is
left unchanged. -/
theorem appendComplexSpan_cluster_correction (row row2 : ShapedRow)
    (cols : List Nat) (pos : Nat) (colorsFg : Nat → Nat) (cw : ℚ)
    (map0 : List Nat) (T G : Nat) (gi : List Nat) (advs : List ℚ)
    (offs : List GlyphOffset)
    (hT : 1 ≤ T) (hmap0 : map0.length = T)
    (hmono : (map0.take T ++ [G]).Chain' (· ≤ ·))
    (hadvs : advs.length = G)
    (hcols : pos + T < cols.length)
    (h : appendComplexSpan row cols pos colorsFg cw map0 T G gi advs offs =
      some row2) :
    ∀ be ∈ clusterIntervals (map0.take T ++ [G]) 1 T 0,
      sumOver (row2.glyphAdvances.drop row.glyphAdvances.length)
          ((map0.take T ++ [G]).getD be.1 0) ((map0.take T ++ [G]).getD be.2 0) =
        ((cols.getD (pos + be.2) 0 : ℚ) - (cols.getD (pos + be.1) 0 : ℚ)) * cw ∧
      ∀ j, (map0.take T ++ [G]).getD be.1 0 ≤ j →
          j + 1 < (map0.take T ++ [G]).getD be.2 0 →
        (row2.glyphAdvances.drop row.glyphAdvances.length).getD j 0 =
          advs.getD j 0 := by
  have hlen : (map0.take T ++ [G]).length = T + 1 := mapW_length map0 T G hmap0
  have hlast : (map0.take T ++ [G]).getD T 0 = G := mapW_getD_last map0 T G hmap0
  have hvals : ∀ j, j < (map0.take T ++ [G]).length →
      (map0.take T ++ [G]).getD j 0 ≤ advs.length := by
    intro j hj
    have hc := chain_le_getD _ hmono j T (by omega) (by omega)
    rw [hlast] at hc
    omega
  have hcols2 : pos + ((map0.take T ++ [G]).length - 1) < cols.length := by
    rw [hlen]
    omega
  have hiT : 1 + T = (map0.take T ++ [G]).length := by rw [hlen]; omega
  obtain ⟨st2, hrun, hlen2, hprev2, hcol2, hunch, hints⟩ :=
    complexLoopGo_spec cols pos colorsFg cw (map0.take T ++ [G]) hmono
      hcols2 T 1
      { beg := 0, prevCluster := (map0.take T ++ [G]).getD 0 0
        advs := advs, colorsAcc := [] }
      hiT (le_refl 1) Nat.zero_lt_one rfl rfl hvals
  unfold appendComplexSpan at h
  dsimp only at h
  rw [getElem?_eq_some_getD _ 0 (by omega), Option.bind_eq_bind,
    Option.some_bind, hrun, Option.bind_eq_bind, Option.some_bind] at h
  have hrow2 : row2.glyphAdvances.drop row.glyphAdvances.length =
      st2.advs.take G := by
    have : row2.glyphAdvances = row.glyphAdvances ++ st2.advs.take G := by
      rw [← Option.some_inj.mp h]
    rw [this, List.drop_left]
  intro be hbe
  obtain ⟨hb1, hb2, hb3⟩ :=
    clusterIntervals_bounds (map0.take T ++ [G]) T 1 0 (by omega) be hbe
  have hbe2lt : be.2 < (map0.take T ++ [G]).length := by omega
  have hhiG : (map0.take T ++ [G]).getD be.2 0 ≤ G := by
    have hc := chain_le_getD _ hmono be.2 T (by omega) (by omega)
    rw [hlast] at hc
    exact hc
  obtain ⟨hsum, hunch2⟩ := hints be hbe
  constructor
  · rw [hrow2]
    rw [sumOver_congr (st2.advs.take G) st2.advs _ _
      (fun j _ hj2 => getD_take st2.advs G j (by omega))]
    exact hsum
  · intro j hj1 hj2
    rw [hrow2, getD_take st2.advs G j (by omega)]
    exact hunch2 j hj1 hj2

lemma appendSimpleSpan_lengths (cols : List Nat) (colorsFg : Nat → Nat)
    (gi : List Nat) (cw : ℚ) (idx : Nat) :
    ∀ (L : Nat) (row row2 : ShapedRow),
      appendSimpleSpan cols colorsFg gi cw idx L row = some row2 →
      row2.glyphIndices.length = row.glyphIndices.length + L ∧
      row2.glyphAdvances.length = row.glyphAdvances.length + L ∧
      row2.glyphOffsets.length = row.glyphOffsets.length + L ∧
      row2.colors.length = row.colors.length + L := by
  intro L
  induction L with
  | zero =>
    intro row row2 h
    rw [appendSimpleSpan] at h
    obtain rfl : row = row2 := by injection h
    omega
  | succ L ih =>
    intro row row2 h
    rw [appendSimpleSpan] at h
    cases hrow1 : appendSimpleSpan cols colorsFg gi cw idx L row with
    | none => rw [hrow1] at h; exact Option.noConfusion h
    | some row1 =>
      rw [hrow1, Option.bind_eq_bind, Option.some_bind] at h
      obtain ⟨h1, h2, h3, h4⟩ := ih row row1 hrow1
      unfold appendSimpleChar at h
      cases hcol : cols[idx + L]? with
      | none => rw [hcol] at h; exact Option.noConfusion h
      | some c =>
        rw [hcol] at h
        cases hga : simpleGlyphAdvance cols cw (idx + L) with
        | none => rw [hga] at h; exact Option.noConfusion h
        | some adv =>
          rw [hga] at h
          cases hg : gi[L]? with
          | none => rw [hg] at h; exact Option.noConfusion h
          | some g =>
            rw [hg] at h
            simp only [Option.bind_eq_bind, Option.some_bind,
              Option.some.injEq] at h
            subst h
            simp only [List.length_append, List.length_cons, List.length_nil]
            omega

/-- Claim C8 (amended): `clear()`, the simple-span append path, and the
complex-span append path preserve the ShapedRow parallel-array invariant
(equal lengths of glyphIndices, glyphAdvances, glyphOffsets and colors),
provided the complex run's cluster map is non-decreasing and starts at
glyph 0, which is the shape the shaping engine produces for the
left-to-right shaping this engine always requests. -/
theorem shapedRow_operations_balanced (r rowS rowC row2S row2C : ShapedRow)
    (cols colsC : List Nat) (colorsFg colorsFgC : Nat → Nat) (gi giC : List Nat)
    (cw cwC : ℚ) (idx L : Nat)
    (pos : Nat) (map0 : List Nat) (T G : Nat) (advsC : List ℚ)
    (offsC : List GlyphOffset)
    (hS : rowS.balanced) (hSrun : appendSimpleSpan cols colorsFg gi cw idx L rowS =
      some row2S)
    (hC : rowC.balanced)
    (hT : 1 ≤ T) (hmap0 : map0.length = T)
    (hstart : map0.getD 0 0 = 0)
    (hmono : (map0.take T ++ [G]).Chain' (· ≤ ·))
    (hadvs : advsC.length = G) (hgi : G ≤ giC.length) (hoffs : G ≤ offsC.length)
    (hcols : pos + T < colsC.length)
    (hCrun : appendComplexSpan rowC colsC pos colorsFgC cwC map0 T G giC advsC
      offsC = some row2C) :
    (ShapedRow.clear r).balanced ∧ row2S.balanced ∧ row2C.balanced := by
  refine ⟨⟨rfl, rfl, rfl⟩, ?_, ?_⟩
  · obtain ⟨h1, h2, h3, h4⟩ := appendSimpleSpan_lengths cols colorsFg gi cw idx
      L rowS row2S hSrun
    obtain ⟨b1, b2, b3⟩ := hS
    exact ⟨by omega, by omega, by omega⟩
  · have hlen : (map0.take T ++ [G]).length = T + 1 := mapW_length map0 T G hmap0
    have hlast : (map0.take T ++ [G]).getD T 0 = G := mapW_getD_last map0 T G hmap0
    have hfirst : (map0.take T ++ [G]).getD 0 0 = 0 := by
      rw [List.getD_eq_getElem?_getD, List.getElem?_append]
      rw [if_pos (by rw [List.length_take]; omega)]
      rw [List.getElem?_take, if_pos (by omega)]
      rw [← List.getD_eq_getElem?_getD]
      exact hstart
    have hvals : ∀ j, j < (map0.take T ++ [G]).length →
        (map0.take T ++ [G]).getD j 0 ≤ advsC.length := by
      intro j hj
      have hc := chain_le_getD _ hmono j T (by omega) (by omega)
      rw [hlast] at hc
      omega
    have hcols2 : pos + ((map0.take T ++ [G]).length - 1) < colsC.length := by
      rw [hlen]
      omega
    have hiT : 1 + T = (map0.take T ++ [G]).length := by rw [hlen]; omega
    obtain ⟨st2, hrun, hlen2, hprev2, hcol2, hunch, hints⟩ :=
      complexLoopGo_spec colsC pos colorsFgC cwC (map0.take T ++ [G]) hmono
        hcols2 T 1
        { beg := 0, prevCluster := (map0.take T ++ [G]).getD 0 0
          advs := advsC, colorsAcc := [] }
        hiT (le_refl 1) Nat.zero_lt_one rfl rfl hvals
    unfold appendComplexSpan at hCrun
    dsimp only at hCrun
    rw [getElem?_eq_some_getD _ 0 (by omega), Option.bind_eq_bind,
      Option.some_bind, hrun, Option.bind_eq_bind, Option.some_bind] at hCrun
    have hrow2 : row2C = { rowC with
        glyphIndices := rowC.glyphIndices ++ giC.take G
        glyphAdvances := rowC.glyphAdvances ++ st2.advs.take G
        glyphOffsets := rowC.glyphOffsets ++ offsC.take G
        colors := rowC.colors ++ st2.colorsAcc } := (Option.some_inj.mp hCrun).symm
    have hcolorsLen : st2.colorsAcc.length = G := by
      rw [hcol2]
      have e1 : (ComplexLoopState.mk 0 ((map0.take T ++ [G]).getD 0 0) advsC []).colorsAcc = [] := rfl
      have e2 : (ComplexLoopState.mk 0 ((map0.take T ++ [G]).getD 0 0) advsC []).prevCluster = (map0.take T ++ [G]).getD 0 0 := rfl
      rw [e1, e2, List.length_nil, hfirst,
        show (map0.take T ++ [G]).length - 1 = T from by omega, hlast]
      omega
    have hadvsLen : st2.advs.length = G := by
      rw [hlen2]
      exact hadvs
    obtain ⟨b1, b2, b3⟩ := hC
    rw [hrow2]
    refine ⟨?_, ?_, ?_⟩ <;>
      simp only [List.length_append, List.length_take, hcolorsLen] <;>
      omega

/-- Witness for C5 on a concrete two-cluster complex span. -/
theorem appendComplexSpan_cluster_correction_witness :
    sumOver (c5Row.glyphAdvances.drop ShapedRow.cleared.glyphAdvances.length)
        ((([0, 2] : List Nat).take 2 ++ [3]).getD 0 0)
        ((([0, 2] : List Nat).take 2 ++ [3]).getD 1 0) =
      ((([0, 1, 3] : List Nat).getD (0 + 1) 0 : ℚ) -
        (([0, 1, 3] : List Nat).getD (0 + 0) 0 : ℚ)) * 10 :=
  (appendComplexSpan_cluster_correction ShapedRow.cleared c5Row [0, 1, 3] 0
    (fun _ => 0) 10 [0, 2] 2 3 [7, 8, 9] [4, 5, 6]
    [zeroOffset, zeroOffset, zeroOffset]
    (by omega) rfl (by rw [List.chain'_iff_pairwise]; decide) rfl (by decide)
    rfl (0, 1) (by decide)).1

/-- Witness for C8 on concrete simple and complex spans. -/
theorem shapedRow_operations_balanced_witness :
    (ShapedRow.clear ShapedRow.cleared).balanced ∧ c2Row.balanced ∧
      c5Row.balanced :=
  shapedRow_operations_balanced ShapedRow.cleared ShapedRow.cleared
    ShapedRow.cleared c2Row c5Row c2Cols [0, 1, 3] (fun _ => 5) (fun _ => 0)
    [11, 12] [7, 8, 9] 10 10 0 2 0 [0, 2] 2 3 [4, 5, 6]
    [zeroOffset, zeroOffset, zeroOffset]
    ⟨rfl, rfl, rfl⟩ rfl ⟨rfl, rfl, rfl⟩ (by omega) rfl rfl
    (by rw [List.chain'_iff_pairwise]; decide) rfl
    (by decide) (by decide) (by decide) rfl

/-- Claim C4, counterexample: `UpdateDrawingBrushes` with unchanged
bold/italic attributes but a different color does not flush the pending
buffer line (it stays [65]) even though the current color state changes,
contradicting the claim that a color change forces a flush. -/
theorem updateDrawingBrushes_color_only_no_flush :
    (updateDrawingBrushes apiStateC4 7 8 { bold := false, italic := false }
      false).bufferLine = [65] ∧
    (updateDrawingBrushes apiStateC4 7 8 { bold := false, italic := false }
      false).currentColorFg = (7 ||| 0xff000000) ∧
    apiStateC4.currentColorFg ≠ (7 ||| 0xff000000) := by
  refine ⟨rfl, rfl, by decide⟩

/-- Witness for C4: painting a cluster on a new row flushes first, and an
attribute change flushes the pending line. -/
theorem paint_flush_boundaries_witness :
    (paintBufferLine 10 5 apiStateC4 [paintClusterH] 0 1).bufferLine =
      clustersText [paintClusterH] ∧
    (updateDrawingBrushes apiStateC4 7 8 { bold := true, italic := false }
      false).bufferLine = [] := by
  have h := paint_flush_boundaries 10 5 apiStateC4 [paintClusterH] 0 1 7 8
    { bold := true, italic := false }
  exact ⟨h.1 (by decide), (h.2.2.1 (by decide)).1⟩

end Terminal.Atlas
